import Mathlib

/-!
Verification development for the deployment-configuration resolution and
topology-synthesis engine of the genai-vanilla bootstrapper.

The settings file (`.env`) is modelled as text: a file is a `List Char`
(its characters) or, where a component works line by line, a
`List (List Char)` (its lines, obtained by splitting on `'\n'`).
Python strings become `List Char` so that every definition is executable
and every concrete statement decidable.

Each definition carries a note pointing at the Python source it embeds.
-/

/-- Shorthand: the character list of a string literal. -/
def lc (s : String) : List Char := s.data

/-- Whitespace accepted by Python's `str.strip()`:
space, tab, newline, carriage return, form feed, vertical tab. -/
def isPyWs (c : Char) : Bool :=
  c = ' ' || c = '\t' || c = '\n' || c = '\r' || c = '\x0c' || c = '\x0b'

/-- Python `str.lstrip()` (whitespace). -/
def pyLStrip (l : List Char) : List Char := l.dropWhile isPyWs

/-- Python `str.rstrip()` (whitespace). -/
def pyRStrip (l : List Char) : List Char := (l.reverse.dropWhile isPyWs).reverse

/-- Python `str.strip()` (whitespace). -/
def pyStrip (l : List Char) : List Char := pyRStrip (pyLStrip l)

/-- Python `str.strip(c)` for a single character `c`: removes every
leading and trailing occurrence of `c`. -/
def stripChar (c : Char) (l : List Char) : List Char :=
  ((l.dropWhile (· = c)).reverse.dropWhile (· = c)).reverse

/-- Value normalisation applied by `ConfigParser.parse_env_file`
(config_parser.py:124): `value.strip().strip('"').strip("'")`. -/
def normValue (v : List Char) : List Char :=
  stripChar '\'' (stripChar '"' (pyStrip v))

/-- One line of `ConfigParser.parse_env_file` (config_parser.py:111-125):
strip the line; skip it when blank or starting with `#`; otherwise, when
it contains `=`, split on the first `=`, drop an inline `#` comment from
the value, normalise the value and strip the key. -/
def parseLine (l : List Char) : Option (List Char × List Char) :=
  let s := pyStrip l
  if s = [] then none
  else if s.head? = some '#' then none
  else if '=' ∈ s then
    let k := s.takeWhile (· ≠ '=')
    let rest := (s.dropWhile (· ≠ '=')).tail
    let v := if '#' ∈ rest then rest.takeWhile (· ≠ '#') else rest
    some (pyStrip k, normValue v)
  else none

/-- Python dict assignment `d[k] = v` on an insertion-ordered
association list: replace in place when the key exists, else append. -/
def updateAssoc (acc : List (List Char × List Char)) (k v : List Char) :
    List (List Char × List Char) :=
  if acc.any (fun p => p.1 = k) then
    acc.map (fun p => if p.1 = k then (k, v) else p)
  else acc ++ [(k, v)]

/-- `ConfigParser.parse_env_file` (config_parser.py:99-127) over the
file's lines: fold `parseLine` into an insertion-ordered dict, later
duplicate keys overwriting earlier ones. -/
def parseEnvFile (env : List (List Char)) : List (List Char × List Char) :=
  env.foldl (fun acc l =>
    match parseLine l with
    | some kv => updateAssoc acc kv.1 kv.2
    | none => acc) []

/-- Lookup in an association list (Python `dict.get`). -/
def lookupAssoc (acc : List (List Char × List Char)) (k : List Char) :
    Option (List Char) :=
  (acc.find? (fun p => p.1 = k)).map (·.2)

/-- The value the parsed dict holds for key `k`: the last line of the
file that assigns `k` wins.  This recursion is the form used in proofs;
`lookupAssoc_parseEnvFile` below shows it agrees with
`lookupAssoc (parseEnvFile env) k`. -/
def lastAssign : List (List Char) → List Char → Option (List Char)
  | [], _ => none
  | l :: ls, k =>
    match lastAssign ls k with
    | some v => some v
    | none =>
      match parseLine l with
      | some kv => if kv.1 = k then some kv.2 else none
      | none => none

/-- Split file text on `'\n'` into lines (Python line iteration /
`re.MULTILINE` line structure).  Always returns at least one line. -/
def splitLines : List Char → List (List Char)
  | [] => [[]]
  | c :: cs =>
    if c = '\n' then [] :: splitLines cs
    else
      match splitLines cs with
      | [] => [[c]]
      | h :: t => (c :: h) :: t

/-- Join lines with `'\n'`: the inverse of `splitLines`. -/
def joinLines : List (List Char) → List Char
  | [] => []
  | [l] => l
  | l :: l' :: ls => l ++ '\n' :: joinLines (l' :: ls)

/-- Digits of a decimal literal to a natural number. -/
def natOfDigits (ds : List Char) : Nat :=
  ds.foldl (fun n c => 10 * n + (c.toNat - '0'.toNat)) 0

/-- Python `int(s)` on a string, `none` modelling the raised
`ValueError`.  Modelled for decimal literals: surrounding whitespace and
an optional sign are accepted; the underscore digit grouping of Python
literals is not modelled (no value in this development uses it). -/
def pyInt (s : List Char) : Option Int :=
  match pyStrip s with
  | '-' :: ds =>
    if ds ≠ [] && ds.all Char.isDigit then some (-(natOfDigits ds : Int)) else none
  | '+' :: ds =>
    if ds ≠ [] && ds.all Char.isDigit then some (natOfDigits ds : Int) else none
  | ds =>
    if ds ≠ [] && ds.all Char.isDigit then some (natOfDigits ds : Int) else none

/-! ## Port manager (core/port_manager.py) -/

namespace PortManager

/-- `PortManager.PORT_MAPPING` (port_manager.py:18-44), in source order. -/
def PORT_MAPPING : List (String × Nat) :=
  [("SUPABASE_DB_PORT", 0),
   ("REDIS_PORT", 1),
   ("KONG_HTTP_PORT", 2),
   ("KONG_HTTPS_PORT", 3),
   ("SUPABASE_META_PORT", 4),
   ("SUPABASE_STORAGE_PORT", 5),
   ("SUPABASE_AUTH_PORT", 6),
   ("SUPABASE_API_PORT", 7),
   ("SUPABASE_REALTIME_PORT", 8),
   ("SUPABASE_STUDIO_PORT", 9),
   ("GRAPH_DB_PORT", 10),
   ("GRAPH_DB_DASHBOARD_PORT", 11),
   ("LLM_PROVIDER_PORT", 12),
   ("LOCAL_DEEP_RESEARCHER_PORT", 13),
   ("SEARXNG_PORT", 14),
   ("OPEN_WEB_UI_PORT", 15),
   ("BACKEND_PORT", 16),
   ("N8N_PORT", 17),
   ("COMFYUI_PORT", 18),
   ("WEAVIATE_PORT", 19),
   ("WEAVIATE_GRPC_PORT", 20),
   ("DOC_PROCESSOR_PORT", 21),
   ("STT_PROVIDER_PORT", 22),
   ("TTS_PROVIDER_PORT", 23),
   ("JUPYTERHUB_PORT", 48)]

/-- `max(self.PORT_MAPPING.values())`. -/
def maxOffset : Nat := (PORT_MAPPING.map Prod.snd).foldl max 0

/-- `PortManager.validate_base_port` (port_manager.py:61-71):
`1024 <= port <= 65535 - max(offsets)`. -/
def validate_base_port (port : Nat) : Bool :=
  decide (1024 ≤ port ∧ port ≤ 65535 - maxOffset)

/-- `PortManager.calculate_port_assignments` (port_manager.py:110-125):
one entry per `PORT_MAPPING` entry, `base_port + offset`. -/
def calculate_port_assignments (base_port : Nat) : List (String × Nat) :=
  PORT_MAPPING.map (fun q => (q.1, base_port + q.2))

/-- Lookup of a port variable in an assignment table. -/
def portOf (assignments : List (String × Nat)) (var : String) : Option Nat :=
  (assignments.find? (fun p => p.1 = var)).map (·.2)

end PortManager

/-! ## Kong gateway config generator (utils/kong_config_generator.py)

Only the fields the routing-table claims refer to are modelled per
service: its `name` and its upstream `url`.  The routes and plugin
lists attached to each entry do not affect which services appear in the
table and are not modelled. -/

/-- One entry of the generated Kong routing table. -/
structure KongService where
  name : String
  url : List Char
deriving DecidableEq

namespace Kong

/-- `KongConfigGenerator.get_env_value` (kong_config_generator.py:32-43):
`self.env_vars.get(key, default)` over the parsed `.env` lines. -/
def getEnvValue (env : List (List Char)) (key : String) (dflt : String) :
    List Char :=
  (lastAssign env (lc key)).getD (lc dflt)

/-- `external_url.startswith(('http://', 'https://'))`
(kong_config_generator.py:323). -/
def hasHttpScheme (u : List Char) : Bool :=
  (lc "http://").isPrefixOf u || (lc "https://").isPrefixOf u

/-- `KongConfigGenerator.get_supabase_services`
(kong_config_generator.py:130-292): the eleven always-containerized
Supabase entries, names and upstream urls in source order. -/
def supabaseServices : List KongService :=
  [⟨"auth-v1-open", lc "http://supabase-auth:9999/verify"⟩,
   ⟨"auth-v1-open-callback", lc "http://supabase-auth:9999/callback"⟩,
   ⟨"auth-v1-open-authorize", lc "http://supabase-auth:9999/authorize"⟩,
   ⟨"auth-v1", lc "http://supabase-auth:9999/"⟩,
   ⟨"rest-v1", lc "http://supabase-api:3000/"⟩,
   ⟨"graphql-v1", lc "http://supabase-api:3000/rpc/graphql"⟩,
   ⟨"realtime-v1-ws", lc "http://supabase-realtime:4000/socket"⟩,
   ⟨"realtime-v1-rest", lc "http://supabase-realtime:4000/api"⟩,
   ⟨"storage-v1", lc "http://supabase-storage:5000/"⟩,
   ⟨"meta", lc "http://supabase-meta:8080/"⟩,
   ⟨"dashboard", lc "http://supabase-studio:3000/"⟩]

/-- `KongConfigGenerator.generate_comfyui_service`
(kong_config_generator.py:294-333): nothing when `COMFYUI_SOURCE` is
`disabled`; url by case on the selector; for `external`, a missing or
non-http(s) `COMFYUI_EXTERNAL_URL` drops the entry (`None`).  The
localhost branch's reachability probe only prints a warning and is not
modelled. -/
def generate_comfyui_service (env : List (List Char)) : Option KongService :=
  let source := getEnvValue env "COMFYUI_SOURCE" ""
  if source = lc "disabled" then none
  else if source = lc "localhost" then
    some ⟨"comfyui-api", lc "http://host.docker.internal:8000/"⟩
  else if source = lc "external" then
    let externalUrl := getEnvValue env "COMFYUI_EXTERNAL_URL" ""
    if externalUrl = [] then none
    else if ¬ hasHttpScheme externalUrl then none
    else some ⟨"comfyui-api", externalUrl⟩
  else
    -- container-cpu, container-gpu, and the default fallback all use
    -- the in-cluster url (kong_config_generator.py:327-331)
    some ⟨"comfyui-api", lc "http://comfyui:18188/"⟩

/-- `KongConfigGenerator.generate_n8n_service`
(kong_config_generator.py:335-362). -/
def generate_n8n_service (env : List (List Char)) : Option KongService :=
  if getEnvValue env "N8N_SOURCE" "" = lc "disabled" then none
  else some ⟨"n8n-api", lc "http://n8n:5678/"⟩

/-- `KongConfigGenerator.generate_searxng_service`
(kong_config_generator.py:364-392). -/
def generate_searxng_service (env : List (List Char)) : Option KongService :=
  if getEnvValue env "SEARXNG_SOURCE" "" = lc "disabled" then none
  else some ⟨"searxng-api", lc "http://searxng:8080/"⟩

/-- `KongConfigGenerator.generate_backend_service`
(kong_config_generator.py:412-430). -/
def generate_backend_service (env : List (List Char)) : Option KongService :=
  if getEnvValue env "BACKEND_SOURCE" "" = lc "disabled" then none
  else some ⟨"backend-api", lc "http://backend:8000/"⟩

/-- `KongConfigGenerator.generate_openwebui_service`
(kong_config_generator.py:432-450). -/
def generate_openwebui_service (env : List (List Char)) : Option KongService :=
  if getEnvValue env "OPEN_WEB_UI_SOURCE" "" = lc "disabled" then none
  else some ⟨"openwebui-api", lc "http://open-web-ui:8080/"⟩

/-- `KongConfigGenerator.get_all_services`
(kong_config_generator.py:99-128): Supabase entries, then the
SOURCE-configurable services that produced an entry, then the adaptive
services (backend, open-webui). -/
def get_all_services (env : List (List Char)) : List KongService :=
  supabaseServices ++
  (generate_comfyui_service env).toList ++
  (generate_n8n_service env).toList ++
  (generate_searxng_service env).toList ++
  (generate_backend_service env).toList ++
  (generate_openwebui_service env).toList

/-- Number of entries of the table carrying a given service name. -/
def countByName (table : List KongService) (n : String) : Nat :=
  (table.filter (fun s => s.name = n)).length

/-- The condition under which the comfyui entry is emitted: selector not
`disabled`, and — when the selector is `external` — a present external
url with a recognised scheme. -/
def comfyuiEligible (env : List (List Char)) : Bool :=
  let source := getEnvValue env "COMFYUI_SOURCE" ""
  if source = lc "disabled" then false
  else if source = lc "external" then
    let externalUrl := getEnvValue env "COMFYUI_EXTERNAL_URL" ""
    if externalUrl = [] then false
    else hasHttpScheme externalUrl
  else true

end Kong

/-- Settings lines refuting the original C5: comfyui's selector is
`external` (not `disabled`) but no `COMFYUI_EXTERNAL_URL` is provided. -/
def c5Env : List (List Char) :=
  [lc "COMFYUI_SOURCE=external",
   lc "N8N_SOURCE=container",
   lc "SEARXNG_SOURCE=container"]

/-- Settings lines for the C9 witness: comfyui set to `external` with a
non-http(s) external url, every other selector untouched. -/
def c9Env : List (List Char) :=
  [lc "COMFYUI_SOURCE=external",
   lc "COMFYUI_EXTERNAL_URL=ftp://models.example.org/"]

/-! ## Source validator (services/source_validator.py)

The service schema `service-configs.yml` itself ships outside the
analysed sources; its shape is taken from how the code reads it
(top-level `source_configurable`, `fixed_services`, `adaptive_services`,
`service_dependencies`).  Theorems quantify over an arbitrary schema
value of that shape. -/

/-- Per-source service configuration: only the `scale` entry is read by
the components modelled here (`config.get('scale', 1)`); `none` models
an absent `scale` key. -/
structure SourceCfg where
  scale : Option Int
deriving DecidableEq

/-- One `service_dependencies` entry
(`requires`, `optional`, `error_message`, `info_message`). -/
structure DepSpec where
  requires : List (List Char)
  optional : List (List Char)
  error_message : Option (List Char)
  info_message : Option (List Char)
deriving DecidableEq

/-- The loaded service schema. -/
structure YamlConfig where
  source_configurable : List (List Char × List (List Char × SourceCfg))
  fixed_services : List (List Char)
  adaptive_services : List (List Char)
  service_dependencies : List (List Char × DepSpec)

/-- Association-list lookup (Python `dict.get`) at any value type. -/
def findAssoc {α : Type} (acc : List (List Char × α)) (k : List Char) : Option α :=
  (acc.find? (fun p => p.1 = k)).map (·.2)

/-- Lexicographic string order by code point (Python `sorted` on `str`). -/
def lexLe : List Char → List Char → Bool
  | [], _ => true
  | _ :: _, [] => false
  | a :: as, b :: bs => if a < b then true else if b < a then false else lexLe as bs

/-- Insertion into a `lexLe`-sorted list. -/
def insertSorted (x : List Char) : List (List Char) → List (List Char)
  | [] => [x]
  | y :: ys => if lexLe x y then x :: y :: ys else y :: insertSorted x ys

/-- `sorted(...)` on a list of strings. -/
def sortLex (l : List (List Char)) : List (List Char) :=
  l.foldr insertSorted []

namespace Validator

/-- `service_key.upper().replace('-', '_') + '_SOURCE'`
(source_validator.py:75). -/
def toSourceVar (key : List Char) : List Char :=
  key.map (fun c => if c = '-' then '_' else c.toUpper) ++ lc "_SOURCE"

/-- `SourceValidator.get_valid_sources_for_service`
(source_validator.py:39-55): the keys of the service's per-source map. -/
def get_valid_sources_for_service (cfg : YamlConfig) (serviceKey : List Char) :
    List (List Char) :=
  match findAssoc cfg.source_configurable serviceKey with
  | some m => m.map Prod.fst
  | none => []

/-- `SourceValidator.get_service_mapping_from_yaml`
(source_validator.py:57-84): SOURCE variable → service key, built from
`source_configurable` then `fixed_services`, dict semantics. -/
def get_service_mapping_from_yaml (cfg : YamlConfig) :
    List (List Char × List Char) :=
  cfg.fixed_services.foldl
    (fun acc key => updateAssoc acc (toSourceVar key) key)
    ((cfg.source_configurable.map Prod.fst).foldl
      (fun acc key => updateAssoc acc (toSourceVar key) key) [])

/-- `SourceValidator.get_adaptive_services_from_yaml`
(source_validator.py:86-103). -/
def get_adaptive_services_from_yaml (cfg : YamlConfig) : List (List Char) :=
  cfg.adaptive_services.map toSourceVar

/-- `f"❌ {service_var}='{source_value}' is invalid. Adaptive services
only support 'container'"` (source_validator.py:126-129). -/
def msgAdaptiveInvalid (var val : List Char) : List Char :=
  lc "❌ " ++ var ++ lc "='" ++ val ++
    lc "' is invalid. Adaptive services only support 'container'"

/-- `f"❌ Unknown SOURCE variable: {service_var}"`
(source_validator.py:135). -/
def msgUnknownVar (var : List Char) : List Char :=
  lc "❌ Unknown SOURCE variable: " ++ var

/-- `f"❌ No valid sources found for service: {service_key}"`
(source_validator.py:140-142). -/
def msgNoValidSources (key : List Char) : List Char :=
  lc "❌ No valid sources found for service: " ++ key

/-- `f"❌ {service_var}='{source_value}' is invalid. Valid options:
{valid_list}"` with `valid_list = ', '.join(sorted(valid_sources))`
(source_validator.py:145-150). -/
def msgInvalidValue (var val : List Char) (valid : List (List Char)) :
    List Char :=
  lc "❌ " ++ var ++ lc "='" ++ val ++ lc "' is invalid. Valid options: " ++
    List.intercalate (lc ", ") (sortLex valid)

/-- `SourceValidator.validate_source_value` (source_validator.py:105-153).
Returns the validity together with the `self.validation_errors` list the
call leaves behind: the method RESETS that list on entry
(source_validator.py:117) and then appends at most one message. -/
def validate_source_value (cfg : YamlConfig) (var val : List Char) :
    Bool × List (List Char) :=
  let mapping := get_service_mapping_from_yaml cfg
  let adaptive := get_adaptive_services_from_yaml cfg
  if var ∈ adaptive then
    if val ≠ lc "container" then (false, [msgAdaptiveInvalid var val])
    else (true, [])
  else
    match findAssoc mapping var with
    | none => (false, [msgUnknownVar var])
    | some key =>
      let valid := get_valid_sources_for_service cfg key
      if valid = [] then (false, [msgNoValidSources key])
      else if val ∉ valid then (false, [msgInvalidValue var val valid])
      else (true, [])

/-- Characters matched by the key class of the start.sh regex
`^([A-Z0-9_]+_SOURCE)=([^#]*)` (config_parser.py:149). -/
def isSourceVarChar (c : Char) : Bool :=
  ('A' ≤ c && c ≤ 'Z') || ('0' ≤ c && c ≤ '9') || c = '_'

/-- One line of `ConfigParser.parse_service_sources`
(config_parser.py:144-153): the stripped line must start with a
`[A-Z0-9_]+_SOURCE` key followed by `=`; the value runs to the first
`#` and is stripped of whitespace and quotes. -/
def sourceLineParse (l : List Char) : Option (List Char × List Char) :=
  let s := pyStrip l
  let k := s.takeWhile (· ≠ '=')
  if s.contains '=' && k.all isSourceVarChar &&
      (lc "_SOURCE").isSuffixOf k && decide (7 < k.length) then
    let rest := (s.dropWhile (· ≠ '=')).tail
    some (k, stripChar '\'' (stripChar '"' (pyStrip (rest.takeWhile (· ≠ '#')))))
  else none

/-- `ConfigParser.parse_service_sources` (config_parser.py:129-156):
starts from the injected non-editable `BACKEND_SOURCE=container` and
folds the file's lines into a dict. -/
def parse_service_sources (env : List (List Char)) :
    List (List Char × List Char) :=
  env.foldl (fun acc l =>
    match sourceLineParse l with
    | some kv => updateAssoc acc kv.1 kv.2
    | none => acc) [(lc "BACKEND_SOURCE", lc "container")]

/-- `SourceValidator.validate_all_sources` (source_validator.py:193-222)
after a successful YAML load: validity is accumulated over all sources,
but each `validate_source_value` call REPLACES `self.validation_errors`,
so the returned list is the one left by the last validated selector. -/
def validate_all_sources (cfg : YamlConfig) (env : List (List Char)) :
    Bool × List (List Char) :=
  let sources := parse_service_sources env
  if sources = [] then (false, [lc "❌ No SOURCE configurations found"])
  else
    sources.foldl (fun acc p =>
      if p.2 = [] then acc
      else
        let r := validate_source_value cfg p.1 p.2
        (acc.1 && r.1, r.2)) (true, [])

/-- No adaptive SOURCE variable doubles as the variable of a service
with a non-empty `source_configurable` enumeration. -/
def adaptiveDisjoint (cfg : YamlConfig) : Bool :=
  (get_adaptive_services_from_yaml cfg).all (fun v =>
    match findAssoc (get_service_mapping_from_yaml cfg) v with
    | some key => decide (get_valid_sources_for_service cfg key = [])
    | none => true)

end Validator

/-- Schema instance used for the C2 failing input: two source-configurable
services and the adaptive backend, mirroring the shape the validator
reads from `service-configs.yml`. -/
def c2Cfg : YamlConfig :=
  { source_configurable :=
      [(lc "llm_provider",
        [(lc "ollama-container-cpu", ⟨some 1⟩), (lc "disabled", ⟨some 0⟩)]),
       (lc "comfyui",
        [(lc "container-cpu", ⟨some 1⟩), (lc "disabled", ⟨some 0⟩)])],
    fixed_services := [],
    adaptive_services := [lc "backend"],
    service_dependencies := [] }

/-- Settings lines holding two invalid selector values. -/
def c2Env : List (List Char) :=
  [lc "LLM_PROVIDER_SOURCE=bad-one", lc "COMFYUI_SOURCE=bad-two"]

/-- Schema instance for the C4 witness. -/
def c4Cfg : YamlConfig :=
  { source_configurable :=
      [(lc "llm_provider",
        [(lc "ollama-container-cpu", ⟨some 1⟩),
         (lc "ollama-container-gpu", ⟨some 1⟩),
         (lc "disabled", ⟨some 0⟩)])],
    fixed_services := [lc "redis"],
    adaptive_services := [lc "backend"],
    service_dependencies := [] }

/-! ## Dependency manager (services/dependency_manager.py) -/

namespace Dependency

/-- `scale_var_mapping` of `DependencyManager.get_service_scale`
(dependency_manager.py:65-73). -/
def scale_var_mapping : List (List Char × List Char) :=
  [(lc "n8n", lc "N8N_SCALE"),
   (lc "n8n-worker", lc "N8N_SCALE"),
   (lc "weaviate", lc "WEAVIATE_SCALE"),
   (lc "neo4j-graph-db", lc "NEO4J_SCALE"),
   (lc "searxng", lc "SEARXNG_SCALE"),
   (lc "backend", lc "BACKEND_SCALE"),
   (lc "jupyterhub", lc "JUPYTERHUB_SCALE")]

/-- `source_var_mapping` of `DependencyManager.get_service_scale`
(dependency_manager.py:81-88). -/
def source_var_mapping : List (List Char × List Char) :=
  [(lc "weaviate", lc "WEAVIATE_SOURCE"),
   (lc "n8n", lc "N8N_SOURCE"),
   (lc "neo4j-graph-db", lc "NEO4J_GRAPH_DB_SOURCE"),
   (lc "searxng", lc "SEARXNG_SOURCE"),
   (lc "backend", lc "BACKEND_SOURCE"),
   (lc "jupyterhub", lc "JUPYTERHUB_SOURCE")]

/-- `DependencyManager.get_service_scale` (dependency_manager.py:52-95):
for a mapped service, `int(env.get(scale_var, '1'))`, `none` modelling
the `int()` `ValueError`; otherwise scale 0 exactly when the service's
SOURCE variable is `disabled`, else 1. -/
def get_service_scale (env : List (List Char)) (name : List Char) :
    Option Int :=
  match findAssoc scale_var_mapping name with
  | some var => pyInt ((lastAssign env var).getD (lc "1"))
  | none =>
    let sources := Validator.parse_service_sources env
    match findAssoc source_var_mapping name with
    | some sv =>
      if findAssoc sources sv = some (lc "disabled") then some 0 else some 1
    | none => some 1

/-- One recorded dependency violation
(dependency_manager.py:132-136). -/
structure Violation where
  service : List Char
  required_service : List Char
  error_message : List Char
deriving DecidableEq

/-- `f"{service_name} requires {required_service} but it's disabled"`
(dependency_manager.py:129-130). -/
def defaultErrMsg (svc req : List Char) : List Char :=
  svc ++ lc " requires " ++ req ++ lc " but it's disabled"

/-- The optional-dependency loop (dependency_manager.py:140-150) reads
each optional service's scale (and may therefore raise); the collected
names only feed an informational print. -/
def readOptionalScales (env : List (List Char)) :
    List (List Char) → Option Unit
  | [] => some ()
  | o :: os =>
    match get_service_scale env o with
    | some _ => readOptionalScales env os
    | none => none

/-- The `requires` loop of `check_service_dependencies`
(dependency_manager.py:122-137): append one violation per required
service whose scale is 0. -/
def checkRequired (env : List (List Char)) (svc : List Char)
    (msg : Option (List Char)) :
    List (List Char) → List Violation → Option (List Violation)
  | [], acc => some acc
  | r :: rs, acc =>
    match get_service_scale env r with
    | none => none
    | some rsc =>
      if rsc = 0 then
        checkRequired env svc msg rs
          (acc ++ [⟨svc, r, msg.getD (defaultErrMsg svc r)⟩])
      else checkRequired env svc msg rs acc

/-- The service loop of `check_service_dependencies`
(dependency_manager.py:115-150): skip disabled services, check the
required then the optional dependencies of enabled ones. -/
def checkDepsList (env : List (List Char)) :
    List (List Char × DepSpec) → List Violation → Option (List Violation)
  | [], acc => some acc
  | p :: ps, acc =>
    match get_service_scale env p.1 with
    | none => none
    | some s =>
      if s = 0 then checkDepsList env ps acc
      else
        match checkRequired env p.1 p.2.error_message p.2.requires acc with
        | none => none
        | some acc' =>
          match readOptionalScales env p.2.optional with
          | none => none
          | some _ => checkDepsList env ps acc'

/-- `DependencyManager.check_service_dependencies`
(dependency_manager.py:97-152): the violation list it records; `none`
models an uncaught `int()` error.  The returned bool of the method is
`violations = []`. -/
def check_service_dependencies (deps : List (List Char × DepSpec))
    (env : List (List Char)) : Option (List Violation) :=
  checkDepsList env deps []

/-- `scale_var_mapping` of `auto_resolve_dependency_violations`
(dependency_manager.py:196-202). -/
def auto_resolve_scale_mapping : List (List Char × List Char) :=
  [(lc "backend", lc "BACKEND_SCALE"),
   (lc "weaviate", lc "WEAVIATE_SCALE"),
   (lc "neo4j-graph-db", lc "NEO4J_SCALE"),
   (lc "searxng", lc "SEARXNG_SCALE"),
   (lc "jupyterhub", lc "JUPYTERHUB_SCALE")]

/-- Does line `l` literally start with `var=`, as matched by the
anchored `re.sub` pattern `^{scale_var}=.*$` under `re.MULTILINE`. -/
def startsVarAssign (var : List Char) (l : List Char) : Bool :=
  (var ++ ['=']).isPrefixOf l

/-- `re.sub(rf'^{scale_var}=.*$', f'{scale_var}=0', content, MULTILINE)`
(dependency_manager.py:180-184, 211-215) on the file's lines: every line
starting with `var=` becomes `var=0`. -/
def rewriteScaleVar (var : List Char) (env : List (List Char)) :
    List (List Char) :=
  env.map (fun l => if startsVarAssign var l then var ++ ['=', '0'] else l)

/-- The scale variable `auto_resolve_dependency_violations` rewrites for
a violating service: `N8N_SCALE` for the n8n pair
(dependency_manager.py:167-169), else its `scale_var_mapping` entry;
`none` when the service is not disableable. -/
def resolveVarOf (svc : List Char) : Option (List Char) :=
  if svc = lc "n8n" ∨ svc = lc "n8n-worker" then some (lc "N8N_SCALE")
  else findAssoc auto_resolve_scale_mapping svc

/-- `DependencyManager.auto_resolve_dependency_violations`
(dependency_manager.py:154-225): fold over the recorded violations,
rewriting the file and appending the service to the disabled list when a
scale variable is known, skipping it otherwise.  Returns the updated
file lines together with the disabled list. -/
def auto_resolve_dependency_violations (violations : List Violation)
    (env : List (List Char)) : List (List Char) × List (List Char) :=
  violations.foldl (fun st v =>
    match resolveVarOf v.service with
    | some var => (rewriteScaleVar var st.1, st.2 ++ [v.service])
    | none => st) (env, [])

/-- A well-formed scale variable name: nonempty, free of whitespace,
`=` and `#`, and not ending in `_SOURCE`.  Every variable
`auto_resolve` or `get_service_scale` maps to satisfies this. -/
def okScaleVar (var : List Char) : Bool :=
  !var.isEmpty &&
  var.all (fun c => !isPyWs c && !(c == '=') && !(c == '#')) &&
  !((lc "_SOURCE").isSuffixOf var)

/-- Every line of `env` that `parse_env_file` reads as assigning `var`
literally starts with `var=` (so the anchored rewrite reaches it). -/
def cleanFor (var : List Char) (env : List (List Char)) : Bool :=
  env.all (fun l =>
    match parseLine l with
    | some kv => !(kv.1 = var : Bool) || startsVarAssign var l
    | none => true)

end Dependency

/-! ## Settings upsert (services/service_config.py, utils/source_override_manager.py) -/

/-- The upsert write of `ServiceConfig.update_env_file`
(service_config.py:285-337) and
`SourceOverrideManager.update_env_file`
(source_override_manager.py:78-122) on the file text: when some line
matches `^key=.*$` (`re.MULTILINE`, key `re.escape`d), every such line
is replaced by `key=value`; otherwise `\n` + `key=value` is appended.
The source's `re.sub` replacement template escape-processes
backslashes across the whole of `key=value`; this model writes key and
value literally, so it is faithful only when both are backslash-free —
the idempotence theorem assumes exactly that. -/
def upsertEnv (key value : List Char) (content : List Char) : List Char :=
  let ls := splitLines content
  let pat := key ++ ['=']
  if ls.any (fun l => pat.isPrefixOf l) then
    joinLines (ls.map (fun l => if pat.isPrefixOf l then pat ++ value else l))
  else content ++ '\n' :: (pat ++ value)

/-- The loop of `update_env_file` over the computed variables
(service_config.py:320-331): sequential upserts on the file text. -/
def updateEnvFileVars (vars : List (List Char × List Char))
    (content : List Char) : List Char :=
  vars.foldl (fun c p => upsertEnv p.1 p.2 c) content

/-- Modelled from the spec: the shipped `service-configs.yml` is not
among the analysed sources; per the spec, n8n's schema declares
`requires: [weaviate]` for the C8 scenario. -/
def c8Deps : List (List Char × DepSpec) :=
  [(lc "n8n", ⟨[lc "weaviate"], [], none, none⟩)]

/-- The settings file of the C8 scenario at the point the dependency
check runs: `N8N_SOURCE=container`, `WEAVIATE_SOURCE=disabled`, and the
scale lines the preceding environment-synthesis stage wrote from those
selectors (n8n's container scale 1 mirrored to worker/init, weaviate's
disabled scale 0). -/
def c8Env : List (List Char) :=
  [lc "N8N_SOURCE=container",
   lc "WEAVIATE_SOURCE=disabled",
   lc "N8N_SCALE=1",
   lc "N8N_WORKER_SCALE=1",
   lc "N8N_INIT_SCALE=1",
   lc "WEAVIATE_SCALE=0"]

/-- The single violation C8 expects `check()` to record. -/
def c8Violations : List Dependency.Violation :=
  [⟨lc "n8n", lc "weaviate",
    Dependency.defaultErrMsg (lc "n8n") (lc "weaviate")⟩]

/-- `auto_resolve` applied to the recorded violations: updated file
lines and the returned disabled list. -/
def c8Resolved : List (List Char) × List (List Char) :=
  Dependency.auto_resolve_dependency_violations c8Violations c8Env

/-- The n8n slice of `_generate_other_services_config`
(service_config.py:214-224): `n8n_scale` is read back from the current
settings file (`current_env.get('N8N_SCALE', default)`), and
`N8N_WORKER_SCALE` / `N8N_INIT_SCALE` mirror it verbatim.  Modelled
from the spec: the schema default for n8n's `container` source is
scale 1 (the schema file itself is not among the analysed sources). -/
def n8nMirrorVars (defaultScale : List Char) (env : List (List Char)) :
    List (List Char × List Char) :=
  let s := (lastAssign env (lc "N8N_SCALE")).getD defaultScale
  [(lc "N8N_SCALE", s), (lc "N8N_WORKER_SCALE", s), (lc "N8N_INIT_SCALE", s)]

/-- The settings file after the next environment-synthesis write pass
mirrors n8n's (now zero) scale to the worker/init variables. -/
def c8After : List Char :=
  updateEnvFileVars (n8nMirrorVars (lc "1") c8Resolved.1)
    (joinLines c8Resolved.1)

/-- Dependency graph refuting the original C1: backend requires
weaviate, weaviate requires searxng — an acyclic chain. -/
def c1Deps : List (List Char × DepSpec) :=
  [(lc "backend", ⟨[lc "weaviate"], [], none, none⟩),
   (lc "weaviate", ⟨[lc "searxng"], [], none, none⟩)]

/-- Settings for the C1 counterexample: searxng disabled, backend and
weaviate enabled. -/
def c1Env : List (List Char) :=
  [lc "BACKEND_SCALE=1", lc "WEAVIATE_SCALE=1", lc "SEARXNG_SCALE=0"]

/-- The one violation the single check pass records on `c1Deps`/`c1Env`
(backend's edge to weaviate is satisfied at check time). -/
def c1Violations : List Dependency.Violation :=
  [⟨lc "weaviate", lc "searxng",
    Dependency.defaultErrMsg (lc "weaviate") (lc "searxng")⟩]

/-- The settings lines after the single auto-resolve pass. -/
def c1Resolved : List (List Char) :=
  (Dependency.auto_resolve_dependency_violations c1Violations c1Env).1

/-- Sequential rewrites for a list of variables. -/
def foldRewrite (vars : List (List Char)) (env : List (List Char)) :
    List (List Char) :=
  vars.foldl (fun e v => Dependency.rewriteScaleVar v e) env

/-- Dependency graph for the C1 witness. -/
def c1wDeps : List (List Char × DepSpec) :=
  [(lc "n8n", ⟨[lc "weaviate"], [], none, none⟩)]

/-- Settings for the C1 witness: n8n enabled, weaviate disabled. -/
def c1wEnv : List (List Char) :=
  [lc "N8N_SCALE=1", lc "WEAVIATE_SCALE=0"]

/-- The violation recorded on `c1wDeps`/`c1wEnv`. -/
def c1wViolations : List Dependency.Violation :=
  [⟨lc "n8n", lc "weaviate",
    Dependency.defaultErrMsg (lc "n8n") (lc "weaviate")⟩]

/-- File content for the C6 counterexample. -/
def c6Content : List Char := lc "K=old"

/-- The value used in the C6 counterexample: it contains a newline. -/
def c6Value : List Char := lc "a" ++ '\n' :: lc "b"

/-- Serialisation of a settings map: one `KEY=VALUE` line per entry
(the write side of the round-trip property; `update_env_file` writes
exactly `f'{key}={value}'` lines). -/
def serializeEnv (m : List (List Char × List Char)) : List Char :=
  joinLines (m.map (fun p => p.1 ++ '=' :: p.2))

/-- A valid identifier key: nonempty, over alphanumerics and `_`. -/
def validIdent (k : List Char) : Bool :=
  !k.isEmpty && k.all (fun c => c.isAlphanum || c == '_')

/-- A value that survives `parse_env_file`'s normalisation unchanged:
no newline, no `#`, and first and last characters neither whitespace
nor quotes. -/
def cleanValue (v : List Char) : Bool :=
  !(v.contains '\n') && !(v.contains '#') &&
  (match v.head? with
   | some c => !(isPyWs c || c == '"' || c == '\'')
   | none => true) &&
  (match v.reverse.head? with
   | some c => !(isPyWs c || c == '"' || c == '\'')
   | none => true)

/-- C3: for every base port accepted by `validate_base_port`,
`calculate_port_assignments` returns exactly one port per entry of the
fixed offset table, each equal to base + its offset, all pairwise
distinct and all ≤ 65535; for base 63000 the offsets 0, 1, 2 map to
63000, 63001, 63002 exactly. -/
theorem c3_port_assignments (base : Nat)
    (h : PortManager.validate_base_port base = true) :
    PortManager.calculate_port_assignments base =
      PortManager.PORT_MAPPING.map (fun q => (q.1, base + q.2)) ∧
    (PortManager.calculate_port_assignments base).length =
      PortManager.PORT_MAPPING.length ∧
    ((PortManager.calculate_port_assignments base).map Prod.snd).Nodup ∧
    (∀ p ∈ PortManager.calculate_port_assignments base, p.2 ≤ 65535) ∧
    PortManager.portOf (PortManager.calculate_port_assignments 63000)
      "SUPABASE_DB_PORT" = some 63000 ∧
    PortManager.portOf (PortManager.calculate_port_assignments 63000)
      "REDIS_PORT" = some 63001 ∧
    PortManager.portOf (PortManager.calculate_port_assignments 63000)
      "KONG_HTTP_PORT" = some 63002 := by
  have hb : 1024 ≤ base ∧ base ≤ 65535 - PortManager.maxOffset :=
    of_decide_eq_true h
  have hmax : PortManager.maxOffset = 48 := by decide
  refine ⟨rfl, by simp [PortManager.calculate_port_assignments], ?_, ?_, by decide, by decide, by decide⟩
  · have hoff : (PortManager.PORT_MAPPING.map Prod.snd).Nodup := by decide
    have heq :
        (PortManager.calculate_port_assignments base).map Prod.snd =
          (PortManager.PORT_MAPPING.map Prod.snd).map (fun o => base + o) := by
      simp [PortManager.calculate_port_assignments, List.map_map]
    rw [heq]
    exact hoff.map (add_right_injective base)
  · intro p hp
    simp only [PortManager.calculate_port_assignments, List.mem_map] at hp
    obtain ⟨q, hq, rfl⟩ := hp
    have hq48 : q.2 ≤ 48 := by
      have : ∀ q ∈ PortManager.PORT_MAPPING, q.2 ≤ 48 := by decide
      exact this q hq
    omega

/-- Witness for `c3_port_assignments` at base 63000. -/
theorem c3_port_assignments_witness :
    PortManager.validate_base_port 63000 = true ∧
    ((PortManager.calculate_port_assignments 63000).map Prod.snd).Nodup :=
  ⟨by decide, (c3_port_assignments 63000 (by decide)).2.2.1⟩

namespace Kong

theorem countName_append (a b : List KongService) (n : String) :
    countByName (a ++ b) n = countByName a n + countByName b n := by
  simp [countByName, List.filter_append]

theorem countName_toList_other (o : Option KongService) (n : String)
    (h : ∀ s, o = some s → ¬ s.name = n) : countByName o.toList n = 0 := by
  cases o with
  | none => rfl
  | some s => simp [countByName, List.filter, h s rfl]

theorem comfyui_service_name (env : List (List Char)) (s : KongService)
    (h : generate_comfyui_service env = some s) : s.name = "comfyui-api" := by
  unfold generate_comfyui_service at h
  by_cases h1 : getEnvValue env "COMFYUI_SOURCE" "" = lc "disabled"
  · simp [h1] at h
  · rw [if_neg h1] at h
    by_cases h2 : getEnvValue env "COMFYUI_SOURCE" "" = lc "localhost"
    · rw [if_pos h2] at h
      rw [← Option.some.inj h]
    · rw [if_neg h2] at h
      by_cases h3 : getEnvValue env "COMFYUI_SOURCE" "" = lc "external"
      · rw [if_pos h3] at h
        by_cases h4 : getEnvValue env "COMFYUI_EXTERNAL_URL" "" = []
        · simp [h4] at h
        · rw [if_neg h4] at h
          by_cases h5 : hasHttpScheme (getEnvValue env "COMFYUI_EXTERNAL_URL" "") = true
          · rw [if_neg (by simp [h5])] at h
            rw [← Option.some.inj h]
          · rw [if_pos (by simpa using h5)] at h
            exact Option.noConfusion h
      · rw [if_neg h3] at h
        rw [← Option.some.inj h]

theorem count_comfyui_toList (env : List (List Char)) :
    countByName (generate_comfyui_service env).toList "comfyui-api" =
      if comfyuiEligible env = true then 1 else 0 := by
  unfold generate_comfyui_service comfyuiEligible
  by_cases h1 : getEnvValue env "COMFYUI_SOURCE" "" = lc "disabled"
  · simp [h1, countByName]
  · rw [if_neg h1, if_neg h1]
    by_cases h2 : getEnvValue env "COMFYUI_SOURCE" "" = lc "localhost"
    · have h3 : ¬ getEnvValue env "COMFYUI_SOURCE" "" = lc "external" := by
        rw [h2]; decide
      rw [if_pos h2, if_neg h3]
      simp [countByName, List.filter]
    · rw [if_neg h2]
      by_cases h3 : getEnvValue env "COMFYUI_SOURCE" "" = lc "external"
      · rw [if_pos h3, if_pos h3]
        by_cases h4 : getEnvValue env "COMFYUI_EXTERNAL_URL" "" = []
        · simp [h4, countByName]
        · rw [if_neg h4, if_neg h4]
          by_cases h5 : hasHttpScheme (getEnvValue env "COMFYUI_EXTERNAL_URL" "") = true
          · rw [if_neg (by simp [h5]), if_pos h5]
            simp [countByName, List.filter]
          · rw [if_pos (by simpa using h5), if_neg h5]
            simp [countByName]
      · rw [if_neg h3, if_neg h3]
        simp [countByName, List.filter]

theorem count_n8n_toList (env : List (List Char)) :
    countByName (generate_n8n_service env).toList "n8n-api" =
      if getEnvValue env "N8N_SOURCE" "" = lc "disabled" then 0 else 1 := by
  unfold generate_n8n_service
  split
  all_goals simp_all [countByName, List.filter]

theorem count_searxng_toList (env : List (List Char)) :
    countByName (generate_searxng_service env).toList "searxng-api" =
      if getEnvValue env "SEARXNG_SOURCE" "" = lc "disabled" then 0 else 1 := by
  unfold generate_searxng_service
  split
  all_goals simp_all [countByName, List.filter]

theorem count_backend_toList (env : List (List Char)) :
    countByName (generate_backend_service env).toList "backend-api" =
      if getEnvValue env "BACKEND_SOURCE" "" = lc "disabled" then 0 else 1 := by
  unfold generate_backend_service
  split
  all_goals simp_all [countByName, List.filter]

theorem count_openwebui_toList (env : List (List Char)) :
    countByName (generate_openwebui_service env).toList "openwebui-api" =
      if getEnvValue env "OPEN_WEB_UI_SOURCE" "" = lc "disabled" then 0 else 1 := by
  unfold generate_openwebui_service
  split
  all_goals simp_all [countByName, List.filter]

theorem count_n8n_toList_other (env : List (List Char)) (n : String)
    (hn : ¬ n = "n8n-api") : countByName (generate_n8n_service env).toList n = 0 := by
  refine countName_toList_other _ _ ?_
  intro s hs
  unfold generate_n8n_service at hs
  split at hs <;> simp_all
  intro h
  apply hn
  rw [← h, ← hs]

theorem count_searxng_toList_other (env : List (List Char)) (n : String)
    (hn : ¬ n = "searxng-api") : countByName (generate_searxng_service env).toList n = 0 := by
  refine countName_toList_other _ _ ?_
  intro s hs
  unfold generate_searxng_service at hs
  split at hs <;> simp_all
  intro h
  apply hn
  rw [← h, ← hs]

theorem count_backend_toList_other (env : List (List Char)) (n : String)
    (hn : ¬ n = "backend-api") : countByName (generate_backend_service env).toList n = 0 := by
  refine countName_toList_other _ _ ?_
  intro s hs
  unfold generate_backend_service at hs
  split at hs <;> simp_all
  intro h
  apply hn
  rw [← h, ← hs]

theorem count_openwebui_toList_other (env : List (List Char)) (n : String)
    (hn : ¬ n = "openwebui-api") : countByName (generate_openwebui_service env).toList n = 0 := by
  refine countName_toList_other _ _ ?_
  intro s hs
  unfold generate_openwebui_service at hs
  split at hs <;> simp_all
  intro h
  apply hn
  rw [← h, ← hs]

theorem count_comfyui_toList_other (env : List (List Char)) (n : String)
    (hn : ¬ n = "comfyui-api") : countByName (generate_comfyui_service env).toList n = 0 := by
  refine countName_toList_other _ _ ?_
  intro s hs h
  exact hn (by rw [← h, comfyui_service_name env s hs])

end Kong

/-- C5 (amended): in the generated gateway table, each of the
selector-configurable services appears exactly once when its selector is
not `disabled` — except that comfyui with selector `external` also
requires a present external url with an http(s) scheme — and is absent
when its selector is `disabled`. -/
theorem c5_gateway_exactly_once (env : List (List Char)) :
    Kong.countByName (Kong.get_all_services env) "comfyui-api" =
      (if Kong.comfyuiEligible env = true then 1 else 0) ∧
    Kong.countByName (Kong.get_all_services env) "n8n-api" =
      (if Kong.getEnvValue env "N8N_SOURCE" "" = lc "disabled" then 0 else 1) ∧
    Kong.countByName (Kong.get_all_services env) "searxng-api" =
      (if Kong.getEnvValue env "SEARXNG_SOURCE" "" = lc "disabled" then 0 else 1) ∧
    Kong.countByName (Kong.get_all_services env) "backend-api" =
      (if Kong.getEnvValue env "BACKEND_SOURCE" "" = lc "disabled" then 0 else 1) ∧
    Kong.countByName (Kong.get_all_services env) "openwebui-api" =
      (if Kong.getEnvValue env "OPEN_WEB_UI_SOURCE" "" = lc "disabled" then 0 else 1) := by
  unfold Kong.get_all_services
  refine ⟨?_, ?_, ?_, ?_, ?_⟩ <;>
    simp only [Kong.countName_append]
  · rw [Kong.count_comfyui_toList,
      Kong.count_n8n_toList_other env _ (by decide),
      Kong.count_searxng_toList_other env _ (by decide),
      Kong.count_backend_toList_other env _ (by decide),
      Kong.count_openwebui_toList_other env _ (by decide)]
    have hsup : Kong.countByName Kong.supabaseServices "comfyui-api" = 0 := by rfl
    rw [hsup]
    omega
  · rw [Kong.count_n8n_toList,
      Kong.count_comfyui_toList_other env _ (by decide),
      Kong.count_searxng_toList_other env _ (by decide),
      Kong.count_backend_toList_other env _ (by decide),
      Kong.count_openwebui_toList_other env _ (by decide)]
    have hsup : Kong.countByName Kong.supabaseServices "n8n-api" = 0 := by rfl
    rw [hsup]
    omega
  · rw [Kong.count_searxng_toList,
      Kong.count_comfyui_toList_other env _ (by decide),
      Kong.count_n8n_toList_other env _ (by decide),
      Kong.count_backend_toList_other env _ (by decide),
      Kong.count_openwebui_toList_other env _ (by decide)]
    have hsup : Kong.countByName Kong.supabaseServices "searxng-api" = 0 := by rfl
    rw [hsup]
    omega
  · rw [Kong.count_backend_toList,
      Kong.count_comfyui_toList_other env _ (by decide),
      Kong.count_n8n_toList_other env _ (by decide),
      Kong.count_searxng_toList_other env _ (by decide),
      Kong.count_openwebui_toList_other env _ (by decide)]
    have hsup : Kong.countByName Kong.supabaseServices "backend-api" = 0 := by rfl
    rw [hsup]
    omega
  · rw [Kong.count_openwebui_toList,
      Kong.count_comfyui_toList_other env _ (by decide),
      Kong.count_n8n_toList_other env _ (by decide),
      Kong.count_searxng_toList_other env _ (by decide),
      Kong.count_backend_toList_other env _ (by decide)]
    have hsup : Kong.countByName Kong.supabaseServices "openwebui-api" = 0 := by rfl
    rw [hsup]
    omega

/-- C5 counterexample: with `COMFYUI_SOURCE=external` and no external
url, comfyui's selector is not `disabled` yet the generated table holds
no comfyui entry — an enabled configurable service that does not appear
exactly once. -/
theorem c5_counterexample :
    Kong.getEnvValue c5Env "COMFYUI_SOURCE" "" ≠ lc "disabled" ∧
    Kong.countByName (Kong.get_all_services c5Env) "comfyui-api" = 0 := by
  decide

/-- C9: a comfyui selector of `external` with a missing external url, or
one whose scheme is not http:// or https://, drops only that entry: the
comfyui entry is absent while every other eligible service still appears
(the other configurable services exactly once when not disabled, and
every Supabase entry unconditionally). -/
theorem c9_external_entry_only (env : List (List Char))
    (hsrc : Kong.getEnvValue env "COMFYUI_SOURCE" "" = lc "external")
    (hbad : Kong.getEnvValue env "COMFYUI_EXTERNAL_URL" "" = [] ∨
      Kong.hasHttpScheme (Kong.getEnvValue env "COMFYUI_EXTERNAL_URL" "") = false) :
    Kong.countByName (Kong.get_all_services env) "comfyui-api" = 0 ∧
    Kong.countByName (Kong.get_all_services env) "n8n-api" =
      (if Kong.getEnvValue env "N8N_SOURCE" "" = lc "disabled" then 0 else 1) ∧
    Kong.countByName (Kong.get_all_services env) "searxng-api" =
      (if Kong.getEnvValue env "SEARXNG_SOURCE" "" = lc "disabled" then 0 else 1) ∧
    Kong.countByName (Kong.get_all_services env) "backend-api" =
      (if Kong.getEnvValue env "BACKEND_SOURCE" "" = lc "disabled" then 0 else 1) ∧
    Kong.countByName (Kong.get_all_services env) "openwebui-api" =
      (if Kong.getEnvValue env "OPEN_WEB_UI_SOURCE" "" = lc "disabled" then 0 else 1) ∧
    ∀ s ∈ Kong.supabaseServices, s ∈ Kong.get_all_services env := by
  have hiff := c5_gateway_exactly_once env
  have hel : Kong.comfyuiEligible env = false := by
    unfold Kong.comfyuiEligible
    rw [if_neg (by rw [hsrc]; decide), if_pos hsrc]
    rcases hbad with hb | hb
    · rw [if_pos hb]
    · show (if Kong.getEnvValue env "COMFYUI_EXTERNAL_URL" "" = [] then false
        else Kong.hasHttpScheme (Kong.getEnvValue env "COMFYUI_EXTERNAL_URL" "")) = false
      rw [hb]
      split <;> rfl
  refine ⟨?_, hiff.2.1, hiff.2.2.1, hiff.2.2.2.1, hiff.2.2.2.2, ?_⟩
  · rw [hiff.1, hel]
    rfl
  · intro s hs
    unfold Kong.get_all_services
    simp only [List.mem_append]
    exact Or.inl (Or.inl (Or.inl (Or.inl (Or.inl hs))))

/-- Witness for `c9_external_entry_only` at a concrete settings file. -/
theorem c9_external_entry_only_witness :
    Kong.getEnvValue c9Env "COMFYUI_SOURCE" "" = lc "external" ∧
    Kong.hasHttpScheme (Kong.getEnvValue c9Env "COMFYUI_EXTERNAL_URL" "") = false ∧
    Kong.countByName (Kong.get_all_services c9Env) "comfyui-api" = 0 ∧
    Kong.countByName (Kong.get_all_services c9Env) "n8n-api" = 1 :=
  ⟨by decide, by decide,
   (c9_external_entry_only c9Env (by decide) (Or.inr (by decide))).1,
   by
    have h := (c9_external_entry_only c9Env (by decide) (Or.inr (by decide))).2.1
    rw [h]
    decide⟩

/-- C2: code bug.  The settings file `c2Env` carries two invalid
selectors (both rejected by `validate_source_value`), and
`validate_all_sources` correctly reports overall failure — but the
collected error list holds exactly one message, because each
`validate_source_value` call resets `self.validation_errors`
(source_validator.py:117); only the last selector's violation survives,
against the accumulate-all policy. -/
theorem c2_error_accumulation_bug :
    (Validator.validate_source_value c2Cfg
      (lc "LLM_PROVIDER_SOURCE") (lc "bad-one")).1 = false ∧
    (Validator.validate_source_value c2Cfg
      (lc "COMFYUI_SOURCE") (lc "bad-two")).1 = false ∧
    (Validator.validate_all_sources c2Cfg c2Env).1 = false ∧
    (Validator.validate_all_sources c2Cfg c2Env).2.length = 1 := by
  decide

/-- C4: `validate_source_value` is true iff the value belongs to the
schema enumeration of the service the variable maps to, or the variable
is adaptive with value `container`; an unknown variable is invalid and
the single recorded message carries the variable's name.  The schema is
assumed not to enumerate sources for a service an adaptive SOURCE
variable maps to (`adaptiveDisjoint`), which holds of the shipped
schema, where only the presence-enabled backend is adaptive. -/
theorem c4_validate_source_iff (cfg : YamlConfig) (var val : List Char)
    (hd : Validator.adaptiveDisjoint cfg = true) :
    ((Validator.validate_source_value cfg var val).1 = true ↔
      ((∃ key,
          findAssoc (Validator.get_service_mapping_from_yaml cfg) var = some key ∧
          val ∈ Validator.get_valid_sources_for_service cfg key) ∨
       (var ∈ Validator.get_adaptive_services_from_yaml cfg ∧
        val = lc "container"))) ∧
    (var ∉ Validator.get_adaptive_services_from_yaml cfg →
      findAssoc (Validator.get_service_mapping_from_yaml cfg) var = none →
      (Validator.validate_source_value cfg var val).1 = false ∧
      (Validator.validate_source_value cfg var val).2 =
        [Validator.msgUnknownVar var] ∧
      var <:+ Validator.msgUnknownVar var) := by
  constructor
  · unfold Validator.validate_source_value
    by_cases ha : var ∈ Validator.get_adaptive_services_from_yaml cfg
    · rw [if_pos ha]
      have hnone : ∀ key,
          findAssoc (Validator.get_service_mapping_from_yaml cfg) var = some key →
          Validator.get_valid_sources_for_service cfg key = [] := by
        intro key hk
        have := List.all_eq_true.mp hd var ha
        rw [hk] at this
        exact of_decide_eq_true this
      by_cases hv : val = lc "container"
      · rw [if_neg (fun h => h hv)]
        constructor
        · intro _
          exact Or.inr ⟨ha, hv⟩
        · intro _
          rfl
      · rw [if_pos hv]
        constructor
        · intro h
          exact absurd h (by simp)
        · rintro (⟨key, hk, hval⟩ | ⟨_, hval⟩)
          · rw [hnone key hk] at hval
            exact absurd hval (List.not_mem_nil val)
          · exact absurd hval hv
    · rw [if_neg ha]
      cases hm : findAssoc (Validator.get_service_mapping_from_yaml cfg) var with
      | none =>
        simp only [hm]
        constructor
        · intro h
          exact absurd h (by simp)
        · rintro (⟨key, hk, _⟩ | ⟨hadj, _⟩)
          · exact Option.noConfusion hk
          · exact absurd hadj ha
      | some key =>
        simp only [hm]
        by_cases he : Validator.get_valid_sources_for_service cfg key = []
        · rw [if_pos he]
          constructor
          · intro h
            exact absurd h (by simp)
          · rintro (⟨key', hk', hv'⟩ | ⟨hadj, _⟩)
            · cases Option.some.inj hk'
              rw [he] at hv'
              exact absurd hv' (List.not_mem_nil val)
            · exact absurd hadj ha
        · rw [if_neg he]
          by_cases hv : val ∈ Validator.get_valid_sources_for_service cfg key
          · rw [if_neg (by simpa using hv)]
            constructor
            · intro _
              exact Or.inl ⟨key, rfl, hv⟩
            · intro _
              rfl
          · rw [if_pos (by simpa using hv)]
            constructor
            · intro h
              exact absurd h (by simp)
            · rintro (⟨key', hk', hv'⟩ | ⟨hadj, _⟩)
              · cases Option.some.inj hk'
                exact absurd hv' hv
              · exact absurd hadj ha
  · intro ha hm
    unfold Validator.validate_source_value
    rw [if_neg ha, hm]
    exact ⟨rfl, rfl, List.suffix_append _ _⟩

/-- Witness for `c4_validate_source_iff`: on the concrete schema,
`LLM_PROVIDER_SOURCE=disabled` is accepted exactly because `disabled`
is in the enumeration. -/
theorem c4_validate_source_iff_witness :
    Validator.adaptiveDisjoint c4Cfg = true ∧
    (Validator.validate_source_value c4Cfg
      (lc "LLM_PROVIDER_SOURCE") (lc "disabled")).1 = true :=
  ⟨by decide, by
    have h := (c4_validate_source_iff c4Cfg
      (lc "LLM_PROVIDER_SOURCE") (lc "disabled") (by decide)).1
    exact h.mpr (Or.inl ⟨lc "llm_provider", by decide, by decide⟩)⟩

/-- C10: for a service with a mapped scale variable,
`get_service_scale` goes through `int()`: it raises (returns `none`)
whenever the variable is present with a non-integer value, and returns
the default 1 whenever the variable is absent — so the dependency check
assumes every mapped `*_SCALE` value parses as an integer. -/
theorem c10_scale_lookup_totality (env : List (List Char))
    (name var v : List Char)
    (hmap : findAssoc Dependency.scale_var_mapping name = some var) :
    (lastAssign env var = some v → pyInt v = none →
      Dependency.get_service_scale env name = none) ∧
    (lastAssign env var = none →
      Dependency.get_service_scale env name = some 1) := by
  constructor
  · intro hl hp
    unfold Dependency.get_service_scale
    rw [hmap]
    simp [hl, hp]
  · intro hl
    unfold Dependency.get_service_scale
    rw [hmap]
    simp only [hl, Option.getD_none]
    decide

/-- Witness for `c10_scale_lookup_totality`: weaviate with
`WEAVIATE_SCALE=abc` raises, and with no `WEAVIATE_SCALE` line defaults
to 1. -/
theorem c10_scale_lookup_totality_witness :
    findAssoc Dependency.scale_var_mapping (lc "weaviate") =
      some (lc "WEAVIATE_SCALE") ∧
    Dependency.get_service_scale [lc "WEAVIATE_SCALE=abc"] (lc "weaviate") =
      none ∧
    Dependency.get_service_scale [] (lc "weaviate") = some 1 :=
  ⟨by decide,
   (c10_scale_lookup_totality [lc "WEAVIATE_SCALE=abc"] (lc "weaviate")
     (lc "WEAVIATE_SCALE") (lc "abc") (by decide)).1 (by decide) (by decide),
   (c10_scale_lookup_totality [] (lc "weaviate")
     (lc "WEAVIATE_SCALE") (lc "abc") (by decide)).2 (by decide)⟩

/-- C8: with `N8N_SOURCE=container`, `WEAVIATE_SOURCE=disabled` and
n8n requiring weaviate, `check()` records exactly the one n8n/weaviate
violation; `auto_resolve()` returns `["n8n"]` and zeroes `N8N_SCALE` in
the settings file; the service-config mirror write (cited by the claim)
then zeroes `N8N_WORKER_SCALE` and `N8N_INIT_SCALE` as well. -/
theorem c8_n8n_weaviate_scenario :
    Dependency.check_service_dependencies c8Deps c8Env = some c8Violations ∧
    c8Violations.length = 1 ∧
    c8Resolved.2 = [lc "n8n"] ∧
    lastAssign c8Resolved.1 (lc "N8N_SCALE") = some (lc "0") ∧
    lastAssign (splitLines c8After) (lc "N8N_SCALE") = some (lc "0") ∧
    lastAssign (splitLines c8After) (lc "N8N_WORKER_SCALE") = some (lc "0") ∧
    lastAssign (splitLines c8After) (lc "N8N_INIT_SCALE") = some (lc "0") := by
  decide

/-- C1 counterexample: on the acyclic chain backend → weaviate →
searxng with only searxng disabled, the single pass records only the
weaviate violation and disables weaviate — after which backend is still
enabled (scale 1) yet holds a `requires` edge to weaviate, now disabled
(scale 0).  The claimed invariant fails after one pass. -/
theorem c1_counterexample :
    Dependency.check_service_dependencies c1Deps c1Env = some c1Violations ∧
    Dependency.get_service_scale c1Resolved (lc "backend") = some 1 ∧
    findAssoc c1Deps (lc "backend") =
      some ⟨[lc "weaviate"], [], none, none⟩ ∧
    Dependency.get_service_scale c1Resolved (lc "weaviate") = some 0 := by
  decide

theorem dropWhile_append_negHead {α : Type} (p : α → Bool) (xs ys : List α)
    (y : α) (hy : p y = false) :
    (xs ++ y :: ys).dropWhile p = xs.dropWhile p ++ y :: ys := by
  induction xs with
  | nil => simp [List.dropWhile_cons, hy]
  | cons x xs ih =>
    by_cases hx : p x = true
    · simp [List.dropWhile_cons, hx, ih]
    · simp only [Bool.not_eq_true] at hx
      simp [List.dropWhile_cons, hx]

theorem takeWhile_append_allPos {α : Type} (p : α → Bool) (xs ys : List α)
    (h : ∀ x ∈ xs, p x = true) :
    (xs ++ ys).takeWhile p = xs ++ ys.takeWhile p := by
  induction xs with
  | nil => simp
  | cons x xs ih =>
    have hx := h x (List.mem_cons_self x xs)
    simp [List.takeWhile_cons, hx,
      ih (fun a ha => h a (List.mem_cons_of_mem x ha))]

theorem dropWhile_append_allPos {α : Type} (p : α → Bool) (xs ys : List α)
    (h : ∀ x ∈ xs, p x = true) :
    (xs ++ ys).dropWhile p = ys.dropWhile p := by
  induction xs with
  | nil => simp
  | cons x xs ih =>
    have hx := h x (List.mem_cons_self x xs)
    simp [List.dropWhile_cons, hx,
      ih (fun a ha => h a (List.mem_cons_of_mem x ha))]

theorem takeWhile_of_all {α : Type} (p : α → Bool) (xs : List α)
    (h : ∀ x ∈ xs, p x = true) : xs.takeWhile p = xs := by
  induction xs with
  | nil => simp
  | cons x xs ih =>
    have hx := h x (List.mem_cons_self x xs)
    simp [List.takeWhile_cons, hx,
      ih (fun a ha => h a (List.mem_cons_of_mem x ha))]

theorem dropWhile_of_heads_neg {α : Type} (p : α → Bool) (xs : List α)
    (h : ∀ x ∈ xs, p x = false) : xs.dropWhile p = xs := by
  cases xs with
  | nil => rfl
  | cons x xs => simp [List.dropWhile_cons, h x (List.mem_cons_self x xs)]

theorem pyLStrip_of_nonws (xs : List Char)
    (h : ∀ c ∈ xs, isPyWs c = false) : pyLStrip xs = xs :=
  dropWhile_of_heads_neg _ _ h

theorem pyRStrip_of_nonws (xs : List Char)
    (h : ∀ c ∈ xs, isPyWs c = false) : pyRStrip xs = xs := by
  unfold pyRStrip
  rw [dropWhile_of_heads_neg _ _ (fun c hc => h c (List.mem_reverse.mp hc)),
    List.reverse_reverse]

theorem pyStrip_of_nonws (xs : List Char)
    (h : ∀ c ∈ xs, isPyWs c = false) : pyStrip xs = xs := by
  unfold pyStrip
  rw [pyLStrip_of_nonws xs h, pyRStrip_of_nonws xs h]

theorem pyRStrip_sep (xs rest : List Char) (sep : Char)
    (hsep : isPyWs sep = false) :
    pyRStrip (xs ++ sep :: rest) = xs ++ sep :: pyRStrip rest := by
  unfold pyRStrip
  rw [List.reverse_append, List.reverse_cons, List.append_assoc,
    List.singleton_append, dropWhile_append_negHead _ _ _ _ hsep]
  simp [List.reverse_append]

/-- Character conditions `okScaleVar` imposes. -/
theorem okScaleVar_chars (w : List Char)
    (hw : Dependency.okScaleVar w = true) :
    w ≠ [] ∧ ∀ c ∈ w, isPyWs c = false ∧ c ≠ '=' ∧ c ≠ '#' := by
  unfold Dependency.okScaleVar at hw
  simp only [Bool.and_eq_true, Bool.not_eq_true'] at hw
  obtain ⟨⟨hne, hall⟩, _⟩ := hw
  constructor
  · intro hnil
    rw [hnil] at hne
    exact absurd hne (by decide)
  · intro c hc
    have hcc := List.all_eq_true.mp hall c hc
    simp only [Bool.and_eq_true, Bool.not_eq_true'] at hcc
    refine ⟨hcc.1.1, ?_, ?_⟩
    · intro he
      have h2 := hcc.1.2
      rw [he] at h2
      exact absurd h2 (by decide)
    · intro he
      have h2 := hcc.2
      rw [he] at h2
      exact absurd h2 (by decide)

theorem pyStrip_assign (w rest : List Char)
    (hw : Dependency.okScaleVar w = true) :
    pyStrip (w ++ '=' :: rest) = w ++ '=' :: pyRStrip rest := by
  obtain ⟨hne, hch⟩ := okScaleVar_chars w hw
  unfold pyStrip
  have hl : pyLStrip (w ++ '=' :: rest) = w ++ '=' :: rest := by
    cases w with
    | nil => exact absurd rfl hne
    | cons a w' =>
      have ha : isPyWs a = false := (hch a (List.mem_cons_self a w')).1
      simp [pyLStrip, List.dropWhile_cons, ha]
  rw [hl]
  exact pyRStrip_sep w rest '=' (by decide)

/-- Parsing a line that literally starts with `w=`, for a well-formed
variable `w`: the parsed key is exactly `w` and the value is the
comment-stripped, normalised remainder. -/
theorem parseLine_assign (w rest : List Char)
    (hw : Dependency.okScaleVar w = true) :
    parseLine (w ++ '=' :: rest) =
      some (w, normValue ((pyRStrip rest).takeWhile (fun c => decide (c ≠ '#')))) := by
  obtain ⟨hne, hch⟩ := okScaleVar_chars w hw
  have hs := pyStrip_assign w rest hw
  unfold parseLine
  simp only [hs]
  have hselist : ¬ (w ++ '=' :: pyRStrip rest = []) := by
    cases w <;> simp
  rw [if_neg hselist]
  have hhead : ¬ ((w ++ '=' :: pyRStrip rest).head? = some '#') := by
    cases w with
    | nil => exact absurd rfl hne
    | cons a w' =>
      simp only [List.cons_append, List.head?_cons]
      intro hcon
      exact (hch a (List.mem_cons_self a w')).2.2 (Option.some.inj hcon)
  rw [if_neg hhead]
  rw [if_pos (show '=' ∈ w ++ '=' :: pyRStrip rest from
    List.mem_append_right _ (List.mem_cons_self _ _))]
  have hall : ∀ x ∈ w, (fun c => decide (c ≠ '=')) x = true := fun x hx => by
    simp only [decide_eq_true_eq]
    exact (hch x hx).2.1
  have htake :
      (w ++ '=' :: pyRStrip rest).takeWhile (fun c => decide (c ≠ '=')) = w := by
    rw [takeWhile_append_allPos _ _ _ hall]
    simp [List.takeWhile_cons]
  have hdrop :
      (w ++ '=' :: pyRStrip rest).dropWhile (fun c => decide (c ≠ '=')) =
        '=' :: pyRStrip rest := by
    rw [dropWhile_append_allPos _ _ _ hall]
    simp [List.dropWhile_cons]
  rw [htake, hdrop]
  have hkey : pyStrip w = w := pyStrip_of_nonws w (fun c hc => (hch c hc).1)
  have hval :
      (if '#' ∈ pyRStrip rest then
        (pyRStrip rest).takeWhile (fun c => decide (c ≠ '#'))
      else pyRStrip rest) =
        (pyRStrip rest).takeWhile (fun c => decide (c ≠ '#')) := by
    by_cases hm : '#' ∈ pyRStrip rest
    · rw [if_pos hm]
    · rw [if_neg hm, takeWhile_of_all _ _ (fun x hx => by
        simp only [decide_eq_true_eq]
        intro hx'
        exact hm (hx' ▸ hx))]
  simp only [List.tail_cons, hkey, hval]

/-- The rewritten line `w=0` parses back to key `w`, value `0`. -/
theorem parseLine_var_zero (w : List Char)
    (hw : Dependency.okScaleVar w = true) :
    parseLine (w ++ ['=', '0']) = some (w, lc "0") := by
  have h := parseLine_assign w ['0'] hw
  simpa using h

theorem startsVarAssign_iff (w l : List Char) :
    Dependency.startsVarAssign w l = true ↔ ∃ t, l = w ++ '=' :: t := by
  unfold Dependency.startsVarAssign
  rw [List.isPrefixOf_iff_prefix]
  constructor
  · rintro ⟨t, ht⟩
    exact ⟨t, by rw [← ht]; simp⟩
  · rintro ⟨t, rfl⟩
    exact ⟨t, by simp⟩

theorem eq_of_eqFree_assign (w r : List Char) :
    ∀ (w' r' : List Char), (∀ c ∈ w, c ≠ '=') → (∀ c ∈ w', c ≠ '=') →
    w ++ '=' :: r = w' ++ '=' :: r' → w = w' := by
  induction w with
  | nil =>
    intro w' r' _ hw' h
    cases w' with
    | nil => rfl
    | cons b w'' =>
      simp only [List.nil_append, List.cons_append, List.cons.injEq] at h
      exact absurd h.1.symm (hw' b (List.mem_cons_self b w''))
  | cons a w₁ ih =>
    intro w' r' hw hw' h
    cases w' with
    | nil =>
      simp only [List.cons_append, List.nil_append, List.cons.injEq] at h
      exact absurd h.1 (hw a (List.mem_cons_self a w₁))
    | cons b w₁' =>
      simp only [List.cons_append, List.cons.injEq] at h
      rw [List.cons_eq_cons]
      exact ⟨h.1, ih w₁' r'
        (fun c hc => hw c (List.mem_cons_of_mem a hc))
        (fun c hc => hw' c (List.mem_cons_of_mem b hc)) h.2⟩

theorem startsVarAssign_both (w w' l : List Char)
    (hw : Dependency.okScaleVar w = true)
    (hw' : Dependency.okScaleVar w' = true)
    (h1 : Dependency.startsVarAssign w l = true)
    (h2 : Dependency.startsVarAssign w' l = true) : w = w' := by
  obtain ⟨t, rfl⟩ := (startsVarAssign_iff w l).mp h1
  obtain ⟨t', ht'⟩ := (startsVarAssign_iff w' _).mp h2
  exact eq_of_eqFree_assign w t w' t'
    (fun c hc => ((okScaleVar_chars w hw).2 c hc).2.1)
    (fun c hc => ((okScaleVar_chars w' hw').2 c hc).2.1) ht'

theorem startsVarAssign_self_append (w t : List Char) :
    Dependency.startsVarAssign w (w ++ '=' :: t) = true :=
  (startsVarAssign_iff w _).mpr ⟨t, rfl⟩

theorem startsVarAssign_rewrite_ne (w w' : List Char)
    (hw : Dependency.okScaleVar w = true)
    (hw' : Dependency.okScaleVar w' = true) (hne : w ≠ w') :
    Dependency.startsVarAssign w (w' ++ ['=', '0']) = false := by
  by_contra hcon
  simp only [Bool.not_eq_false] at hcon
  exact hne (startsVarAssign_both w w' _ hw hw' hcon
    (startsVarAssign_self_append w' ['0']))

theorem lastAssign_cons (l : List Char) (ls : List (List Char)) (k : List Char) :
    lastAssign (l :: ls) k =
      match lastAssign ls k with
      | some v => some v
      | none =>
        match parseLine l with
        | some kv => if kv.1 = k then some kv.2 else none
        | none => none := rfl

theorem rewriteScaleVar_cons (w l : List Char) (ls : List (List Char)) :
    Dependency.rewriteScaleVar w (l :: ls) =
      (if Dependency.startsVarAssign w l then w ++ ['=', '0'] else l) ::
        Dependency.rewriteScaleVar w ls := rfl

theorem lastAssign_rewriteVar_other (w var : List Char)
    (env : List (List Char)) (hw : Dependency.okScaleVar w = true)
    (hne : var ≠ w) :
    lastAssign (Dependency.rewriteScaleVar w env) var = lastAssign env var := by
  induction env with
  | nil => rfl
  | cons l ls ih =>
    rw [rewriteScaleVar_cons, lastAssign_cons, lastAssign_cons, ih]
    cases lastAssign ls var with
    | some v => rfl
    | none =>
      by_cases hl : Dependency.startsVarAssign w l = true
      · rw [if_pos hl]
        obtain ⟨t, rfl⟩ := (startsVarAssign_iff w l).mp hl
        simp only [parseLine_var_zero w hw, parseLine_assign w t hw]
        rw [if_neg (show ¬(w = var) from fun hh => hne hh.symm),
          if_neg (show ¬(w = var) from fun hh => hne hh.symm)]
      · rw [if_neg (by simpa using hl)]

theorem lastAssign_rewriteVar_noHead (w : List Char)
    (env : List (List Char)) (_hw : Dependency.okScaleVar w = true)
    (hany : env.any (Dependency.startsVarAssign w) = false)
    (hclean : Dependency.cleanFor w env = true) :
    lastAssign (Dependency.rewriteScaleVar w env) w = none := by
  induction env with
  | nil => rfl
  | cons l ls ih =>
    rw [List.any_cons, Bool.or_eq_false_iff] at hany
    unfold Dependency.cleanFor at hclean
    rw [List.all_cons, Bool.and_eq_true] at hclean
    rw [rewriteScaleVar_cons, if_neg (by simp [hany.1]), lastAssign_cons,
      ih hany.2 hclean.2]
    cases hp : parseLine l with
    | none => rfl
    | some kv =>
      rw [hp] at hclean
      have hc : ¬(kv.1 = w) := by
        have h1 := hclean.1
        simp only [hany.1, Bool.or_false, Bool.not_eq_true',
          decide_eq_false_iff_not] at h1
        exact h1
      simp [hc]

theorem lastAssign_rewriteVar_self (w : List Char)
    (env : List (List Char)) (hw : Dependency.okScaleVar w = true)
    (hany : env.any (Dependency.startsVarAssign w) = true)
    (hclean : Dependency.cleanFor w env = true) :
    lastAssign (Dependency.rewriteScaleVar w env) w = some (lc "0") := by
  induction env with
  | nil => simp at hany
  | cons l ls ih =>
    unfold Dependency.cleanFor at hclean
    rw [List.all_cons, Bool.and_eq_true] at hclean
    by_cases hls : ls.any (Dependency.startsVarAssign w) = true
    · rw [rewriteScaleVar_cons, lastAssign_cons, ih hls hclean.2]
    · have hl : Dependency.startsVarAssign w l = true := by
        rw [List.any_cons, Bool.or_eq_true] at hany
        rcases hany with h | h
        · exact h
        · exact absurd h hls
      rw [rewriteScaleVar_cons, if_pos hl, lastAssign_cons,
        lastAssign_rewriteVar_noHead w ls hw (by simpa using hls) hclean.2]
      simp [parseLine_var_zero w hw]

theorem lastAssign_rewriteVar_cases (w : List Char)
    (env : List (List Char)) (hw : Dependency.okScaleVar w = true) :
    lastAssign (Dependency.rewriteScaleVar w env) w = some (lc "0") ∨
    lastAssign (Dependency.rewriteScaleVar w env) w = lastAssign env w := by
  induction env with
  | nil => exact Or.inr rfl
  | cons l ls ih =>
    rw [rewriteScaleVar_cons, lastAssign_cons, lastAssign_cons]
    rcases ih with h | h
    · rw [h]
      exact Or.inl rfl
    · rw [h]
      cases lastAssign ls w with
      | some v => exact Or.inr rfl
      | none =>
        by_cases hl : Dependency.startsVarAssign w l = true
        · rw [if_pos hl]
          simp only [parseLine_var_zero w hw, if_pos rfl]
          exact Or.inl rfl
        · rw [if_neg (by simpa using hl)]
          exact Or.inr rfl

theorem takeWhile_neq_assign (w t : List Char)
    (hw : Dependency.okScaleVar w = true) :
    (w ++ '=' :: t).takeWhile (fun c => decide (c ≠ '=')) = w := by
  obtain ⟨_, hch⟩ := okScaleVar_chars w hw
  rw [takeWhile_append_allPos _ _ _ (fun x hx => by
    simp only [decide_eq_true_eq]
    exact (hch x hx).2.1)]
  simp [List.takeWhile_cons]

theorem sourceLineParse_assign_none (w rest : List Char)
    (hw : Dependency.okScaleVar w = true) :
    Validator.sourceLineParse (w ++ '=' :: rest) = none := by
  unfold Validator.sourceLineParse
  simp only [pyStrip_assign w rest hw,
    takeWhile_neq_assign w (pyRStrip rest) hw]
  have hsuf : (lc "_SOURCE").isSuffixOf w = false := by
    have h := hw
    unfold Dependency.okScaleVar at h
    simp only [Bool.and_eq_true, Bool.not_eq_true'] at h
    exact h.2
  simp [hsuf]

theorem any_head_rewriteVar (w w' : List Char) (env : List (List Char))
    (hw : Dependency.okScaleVar w = true)
    (hw' : Dependency.okScaleVar w' = true) :
    (Dependency.rewriteScaleVar w' env).any (Dependency.startsVarAssign w) =
      env.any (Dependency.startsVarAssign w) := by
  induction env with
  | nil => rfl
  | cons l ls ih =>
    rw [rewriteScaleVar_cons, List.any_cons, List.any_cons, ih]
    congr 1
    by_cases hl : Dependency.startsVarAssign w' l = true
    · rw [if_pos hl]
      by_cases hww : w = w'
      · subst hww
        rw [startsVarAssign_self_append w ['0'], hl]
      · rw [startsVarAssign_rewrite_ne w w' hw hw' hww]
        by_cases h2 : Dependency.startsVarAssign w l = true
        · exact absurd (startsVarAssign_both w w' l hw hw' h2 hl) hww
        · simp only [Bool.not_eq_true] at h2
          rw [h2]
    · rw [if_neg (by simpa using hl)]

theorem cleanFor_rewriteVar (w w' : List Char) (env : List (List Char))
    (hw' : Dependency.okScaleVar w' = true)
    (h : Dependency.cleanFor w env = true) :
    Dependency.cleanFor w (Dependency.rewriteScaleVar w' env) = true := by
  unfold Dependency.cleanFor at h ⊢
  rw [List.all_eq_true] at h ⊢
  intro l' hl'
  unfold Dependency.rewriteScaleVar at hl'
  rw [List.mem_map] at hl'
  obtain ⟨l, hl, rfl⟩ := hl'
  by_cases hh : Dependency.startsVarAssign w' l = true
  · rw [if_pos hh]
    simp only [parseLine_var_zero w' hw']
    by_cases hww : w' = w
    · subst hww
      simp [startsVarAssign_self_append w' ['0']]
    · simp [hww]
  · rw [if_neg (by simpa using hh)]
    exact h l hl

theorem sourceLineParse_rewriteVar (w l : List Char)
    (hw : Dependency.okScaleVar w = true) :
    Validator.sourceLineParse
      (if Dependency.startsVarAssign w l then w ++ ['=', '0'] else l) =
      Validator.sourceLineParse l := by
  by_cases hh : Dependency.startsVarAssign w l = true
  · rw [if_pos hh]
    obtain ⟨t, rfl⟩ := (startsVarAssign_iff w l).mp hh
    rw [sourceLineParse_assign_none w ['0'] hw,
      sourceLineParse_assign_none w t hw]
  · rw [if_neg (by simpa using hh)]

theorem parse_sources_fold_eq (w : List Char)
    (hw : Dependency.okScaleVar w = true) (env : List (List Char)) :
    ∀ acc,
      (Dependency.rewriteScaleVar w env).foldl (fun acc l =>
        match Validator.sourceLineParse l with
        | some kv => updateAssoc acc kv.1 kv.2
        | none => acc) acc =
      env.foldl (fun acc l =>
        match Validator.sourceLineParse l with
        | some kv => updateAssoc acc kv.1 kv.2
        | none => acc) acc := by
  induction env with
  | nil => intro acc; rfl
  | cons l ls ih =>
    intro acc
    rw [rewriteScaleVar_cons, List.foldl_cons, List.foldl_cons,
      sourceLineParse_rewriteVar w l hw]
    exact ih _

theorem parse_service_sources_rewriteVar (w : List Char)
    (env : List (List Char)) (hw : Dependency.okScaleVar w = true) :
    Validator.parse_service_sources (Dependency.rewriteScaleVar w env) =
      Validator.parse_service_sources env := by
  unfold Validator.parse_service_sources
  exact parse_sources_fold_eq w hw env _

theorem findAssoc_mem {α : Type} (acc : List (List Char × α))
    (k : List Char) (v : α) (h : findAssoc acc k = some v) :
    ∃ p, p ∈ acc ∧ p.1 = k ∧ p.2 = v := by
  unfold findAssoc at h
  cases hf : acc.find? (fun p => p.1 = k) with
  | none => rw [hf] at h; exact Option.noConfusion h
  | some p =>
    rw [hf] at h
    have hps := List.find?_some hf
    simp only [decide_eq_true_eq] at hps
    exact ⟨p, List.mem_of_find?_eq_some hf, hps, Option.some.inj h⟩

theorem scale_mapping_ok (n v : List Char)
    (h : findAssoc Dependency.scale_var_mapping n = some v) :
    Dependency.okScaleVar v = true := by
  obtain ⟨p, hp, _, rfl⟩ := findAssoc_mem _ _ _ h
  have hall : ∀ q ∈ Dependency.scale_var_mapping,
      Dependency.okScaleVar q.2 = true := by decide
  exact hall p hp

theorem resolveVarOf_ok (s v : List Char)
    (h : Dependency.resolveVarOf s = some v) :
    Dependency.okScaleVar v = true := by
  unfold Dependency.resolveVarOf at h
  split at h
  · rw [← Option.some.inj h]
    decide
  · obtain ⟨p, hp, _, rfl⟩ := findAssoc_mem _ _ _ h
    have hall : ∀ q ∈ Dependency.auto_resolve_scale_mapping,
        Dependency.okScaleVar q.2 = true := by decide
    exact hall p hp

/-- The variable `auto_resolve` rewrites for a service is exactly the
variable `get_service_scale` reads for it. -/
theorem resolveVarOf_scale_mapping (s v : List Char)
    (h : Dependency.resolveVarOf s = some v) :
    findAssoc Dependency.scale_var_mapping s = some v := by
  unfold Dependency.resolveVarOf at h
  split at h
  · rename_i hs
    cases Option.some.inj h
    rcases hs with rfl | rfl <;> decide
  · obtain ⟨p, hp, hk, hv⟩ := findAssoc_mem _ _ _ h
    have hall : ∀ q ∈ Dependency.auto_resolve_scale_mapping,
        findAssoc Dependency.scale_var_mapping q.1 = some q.2 := by decide
    rw [← hk, ← hv]
    exact hall p hp

theorem get_scale_rewriteVar_pos (w : List Char) (env : List (List Char))
    (name : List Char) (s : Int) (hw : Dependency.okScaleVar w = true)
    (h : Dependency.get_service_scale (Dependency.rewriteScaleVar w env) name =
      some s) (hs : s ≠ 0) :
    Dependency.get_service_scale env name = some s := by
  unfold Dependency.get_service_scale at h ⊢
  cases hm : findAssoc Dependency.scale_var_mapping name with
  | some var =>
    simp only [hm] at h ⊢
    have hvok := scale_mapping_ok name var hm
    by_cases hvw : var = w
    · subst hvw
      rcases lastAssign_rewriteVar_cases var env hvok with h0 | hsame
      · rw [h0] at h
        have hz : pyInt ((some (lc "0")).getD (lc "1")) = some 0 := by decide
        rw [hz] at h
        exact absurd (Option.some.inj h).symm hs
      · rw [hsame] at h
        exact h
    · rw [lastAssign_rewriteVar_other w var env hw hvw] at h
      exact h
  | none =>
    simp only [hm] at h ⊢
    rw [parse_service_sources_rewriteVar w env hw] at h
    exact h

theorem auto_resolve_fst (vs : List Dependency.Violation)
    (env : List (List Char)) :
    (Dependency.auto_resolve_dependency_violations vs env).1 =
      foldRewrite (vs.filterMap (fun v => Dependency.resolveVarOf v.service))
        env := by
  unfold Dependency.auto_resolve_dependency_violations foldRewrite
  suffices h : ∀ (vs : List Dependency.Violation) (env : List (List Char))
      (acc : List (List Char)),
      (vs.foldl (fun st v =>
        match Dependency.resolveVarOf v.service with
        | some var => (Dependency.rewriteScaleVar var st.1, st.2 ++ [v.service])
        | none => st) (env, acc)).1 =
      (vs.filterMap (fun v => Dependency.resolveVarOf v.service)).foldl
        (fun e v => Dependency.rewriteScaleVar v e) env by
    exact h vs env []
  intro vs
  induction vs with
  | nil => intro env acc; rfl
  | cons v vs ih =>
    intro env acc
    rw [List.foldl_cons, List.filterMap_cons]
    cases hr : Dependency.resolveVarOf v.service with
    | some var =>
      simp only [hr, List.foldl_cons]
      exact ih _ _
    | none =>
      simp only [hr]
      exact ih _ _

theorem fold_lastAssign_other (vars : List (List Char))
    (env : List (List Char)) (var : List Char)
    (hall : ∀ w ∈ vars, Dependency.okScaleVar w = true)
    (hnot : var ∉ vars) :
    lastAssign (foldRewrite vars env) var = lastAssign env var := by
  induction vars generalizing env with
  | nil => rfl
  | cons w vars ih =>
    have hw := hall w (List.mem_cons_self w vars)
    have hne : var ≠ w := fun hh => hnot (hh ▸ List.mem_cons_self w vars)
    rw [show foldRewrite (w :: vars) env =
      foldRewrite vars (Dependency.rewriteScaleVar w env) from rfl]
    rw [ih (Dependency.rewriteScaleVar w env)
      (fun x hx => hall x (List.mem_cons_of_mem w hx))
      (fun hh => hnot (List.mem_cons_of_mem w hh)),
      lastAssign_rewriteVar_other w var env hw hne]

theorem fold_scale_pos (vars : List (List Char)) (env : List (List Char))
    (name : List Char) (s : Int)
    (hall : ∀ w ∈ vars, Dependency.okScaleVar w = true)
    (h : Dependency.get_service_scale (foldRewrite vars env) name = some s)
    (hs : s ≠ 0) :
    Dependency.get_service_scale env name = some s := by
  induction vars generalizing env with
  | nil => exact h
  | cons w vars ih =>
    have hw := hall w (List.mem_cons_self w vars)
    rw [show foldRewrite (w :: vars) env =
      foldRewrite vars (Dependency.rewriteScaleVar w env) from rfl] at h
    exact get_scale_rewriteVar_pos w env name s hw
      (ih (Dependency.rewriteScaleVar w env)
        (fun x hx => hall x (List.mem_cons_of_mem w hx)) h) hs

theorem fold_self_zero (vars : List (List Char)) (env : List (List Char))
    (var : List Char)
    (hall : ∀ w ∈ vars, Dependency.okScaleVar w = true)
    (hvar : var ∈ vars)
    (hclean : Dependency.cleanFor var env = true)
    (hany : env.any (Dependency.startsVarAssign var) = true) :
    lastAssign (foldRewrite vars env) var = some (lc "0") := by
  induction vars generalizing env with
  | nil => exact absurd hvar (List.not_mem_nil var)
  | cons w vars ih =>
    have hw := hall w (List.mem_cons_self w vars)
    have hvok : Dependency.okScaleVar var = true := hall var hvar
    rw [show foldRewrite (w :: vars) env =
      foldRewrite vars (Dependency.rewriteScaleVar w env) from rfl]
    by_cases hvr : var ∈ vars
    · exact ih (Dependency.rewriteScaleVar w env)
        (fun x hx => hall x (List.mem_cons_of_mem w hx)) hvr
        (cleanFor_rewriteVar var w env hw hclean)
        (by rw [any_head_rewriteVar var w env hvok hw]; exact hany)
    · have hvw : var = w := by
        rcases List.mem_cons.mp hvar with h | h
        · exact h
        · exact absurd h hvr
      subst hvw
      rw [fold_lastAssign_other vars _ var
        (fun x hx => hall x (List.mem_cons_of_mem var hx)) hvr]
      exact lastAssign_rewriteVar_self var env hvok hany hclean

theorem checkRequired_mono (env : List (List Char)) (svc : List Char)
    (msg : Option (List Char)) (rs : List (List Char)) :
    ∀ acc vs, Dependency.checkRequired env svc msg rs acc = some vs →
      ∀ v ∈ acc, v ∈ vs := by
  induction rs with
  | nil =>
    intro acc vs h v hv
    simp only [Dependency.checkRequired] at h
    rwa [← Option.some.inj h]
  | cons r rs ih =>
    intro acc vs h v hv
    simp only [Dependency.checkRequired] at h
    cases hg : Dependency.get_service_scale env r with
    | none => simp only [hg] at h; exact Option.noConfusion h
    | some rsc =>
      simp only [hg] at h
      by_cases hz : rsc = 0
      · rw [if_pos hz] at h
        exact ih _ vs h v (List.mem_append_left _ hv)
      · rw [if_neg hz] at h
        exact ih _ vs h v hv

theorem checkDepsList_mono (env : List (List Char))
    (deps : List (List Char × DepSpec)) :
    ∀ acc vs, Dependency.checkDepsList env deps acc = some vs →
      ∀ v ∈ acc, v ∈ vs := by
  induction deps with
  | nil =>
    intro acc vs h v hv
    simp only [Dependency.checkDepsList] at h
    rwa [← Option.some.inj h]
  | cons q qs ih =>
    intro acc vs h v hv
    simp only [Dependency.checkDepsList] at h
    cases hg : Dependency.get_service_scale env q.1 with
    | none => simp only [hg] at h; exact Option.noConfusion h
    | some s =>
      simp only [hg] at h
      by_cases hz : s = 0
      · rw [if_pos hz] at h
        exact ih acc vs h v hv
      · rw [if_neg hz] at h
        cases hcr : Dependency.checkRequired env q.1 q.2.error_message
            q.2.requires acc with
        | none => simp only [hcr] at h; exact Option.noConfusion h
        | some acc' =>
          simp only [hcr] at h
          cases hro : Dependency.readOptionalScales env q.2.optional with
          | none => simp only [hro] at h; exact Option.noConfusion h
          | some u =>
            simp only [hro] at h
            exact ih acc' vs h v (checkRequired_mono env q.1 q.2.error_message
              q.2.requires acc acc' hcr v hv)

theorem checkRequired_complete (env : List (List Char)) (svc : List Char)
    (msg : Option (List Char)) (rs : List (List Char)) :
    ∀ acc vs, Dependency.checkRequired env svc msg rs acc = some vs →
      ∀ r ∈ rs, ∃ s0, Dependency.get_service_scale env r = some s0 ∧
        (s0 = 0 → ∃ v ∈ vs, v.service = svc) := by
  induction rs with
  | nil =>
    intro acc vs _ r hr
    exact absurd hr (List.not_mem_nil r)
  | cons r' rs ih =>
    intro acc vs h r hr
    simp only [Dependency.checkRequired] at h
    cases hg : Dependency.get_service_scale env r' with
    | none => simp only [hg] at h; exact Option.noConfusion h
    | some rsc =>
      simp only [hg] at h
      rcases List.mem_cons.mp hr with rfl | hr'
      · refine ⟨rsc, hg, fun hz => ?_⟩
        rw [if_pos hz] at h
        have hm := checkRequired_mono env svc msg rs _ vs h
        exact ⟨⟨svc, r, msg.getD (Dependency.defaultErrMsg svc r)⟩,
          hm _ (List.mem_append_right _ (List.mem_cons_self _ _)), rfl⟩
      · by_cases hz : rsc = 0
        · rw [if_pos hz] at h
          exact ih _ vs h r hr'
        · rw [if_neg hz] at h
          exact ih _ vs h r hr'

theorem checkDeps_complete (env : List (List Char))
    (deps : List (List Char × DepSpec)) :
    ∀ acc vs, Dependency.checkDepsList env deps acc = some vs →
      ∀ p ∈ deps, ∀ sp : Int,
        Dependency.get_service_scale env p.1 = some sp → sp ≠ 0 →
        ∀ r ∈ p.2.requires, ∃ s0,
          Dependency.get_service_scale env r = some s0 ∧
          (s0 = 0 → ∃ v ∈ vs, v.service = p.1) := by
  induction deps with
  | nil =>
    intro acc vs _ p hp
    exact absurd hp (List.not_mem_nil p)
  | cons q qs ih =>
    intro acc vs h p hp sp hsp hsp0 r hr
    simp only [Dependency.checkDepsList] at h
    cases hg : Dependency.get_service_scale env q.1 with
    | none => simp only [hg] at h; exact Option.noConfusion h
    | some s =>
      simp only [hg] at h
      rcases List.mem_cons.mp hp with rfl | hp'
      · have hse : s = sp := by
          rw [hg] at hsp
          exact Option.some.inj hsp
        rw [if_neg (fun hh => hsp0 (by rw [← hse]; exact hh))] at h
        cases hcr : Dependency.checkRequired env p.1 p.2.error_message
            p.2.requires acc with
        | none => simp only [hcr] at h; exact Option.noConfusion h
        | some acc' =>
          simp only [hcr] at h
          cases hro : Dependency.readOptionalScales env p.2.optional with
          | none => simp only [hro] at h; exact Option.noConfusion h
          | some u =>
            simp only [hro] at h
            obtain ⟨s0, hs0, himp⟩ := checkRequired_complete env p.1
              p.2.error_message p.2.requires acc acc' hcr r hr
            refine ⟨s0, hs0, fun hz => ?_⟩
            obtain ⟨v, hv, hveq⟩ := himp hz
            exact ⟨v, checkDepsList_mono env qs acc' vs h v hv, hveq⟩
      · by_cases hz : s = 0
        · rw [if_pos hz] at h
          exact ih acc vs h p hp' sp hsp hsp0 r hr
        · rw [if_neg hz] at h
          cases hcr : Dependency.checkRequired env q.1 q.2.error_message
              q.2.requires acc with
          | none => simp only [hcr] at h; exact Option.noConfusion h
          | some acc' =>
            simp only [hcr] at h
            cases hro : Dependency.readOptionalScales env q.2.optional with
            | none => simp only [hro] at h; exact Option.noConfusion h
            | some u =>
              simp only [hro] at h
              exact ih acc' vs h p hp' sp hsp hsp0 r hr

/-- C1 (amended): after the single `auto_resolve` pass, every service
that is still enabled and has a DependencySpec has all its `requires`
edges pointing to services that were enabled (nonzero scale) when
`check()` ran — provided every recorded violation concerns a service
`auto_resolve` can disable whose scale variable is assigned by a line
of the settings file that literally starts with `VAR=`.  Requires edges
into services disabled by the pass itself can survive it (see the
counterexample); the pipeline relies on a full restart to cascade. -/
theorem c1_dependency_soundness_amended
    (deps : List (List Char × DepSpec)) (env : List (List Char))
    (vs : List Dependency.Violation)
    (hcheck : Dependency.check_service_dependencies deps env = some vs)
    (hres : ∀ v ∈ vs, ∃ var, Dependency.resolveVarOf v.service = some var ∧
      Dependency.cleanFor var env = true ∧
      env.any (Dependency.startsVarAssign var) = true) :
    ∀ p ∈ deps, ∀ s : Int,
      Dependency.get_service_scale
        (Dependency.auto_resolve_dependency_violations vs env).1 p.1 = some s →
      s ≠ 0 →
      ∀ r ∈ p.2.requires, ∃ s0 : Int,
        Dependency.get_service_scale env r = some s0 ∧ s0 ≠ 0 := by
  intro p hp s hs hs0 r hr
  rw [auto_resolve_fst] at hs
  have hallok : ∀ w ∈ vs.filterMap (fun v => Dependency.resolveVarOf v.service),
      Dependency.okScaleVar w = true := by
    intro w hw
    obtain ⟨v, _, hrw⟩ := List.mem_filterMap.mp hw
    exact resolveVarOf_ok v.service w hrw
  have hbefore : Dependency.get_service_scale env p.1 = some s :=
    fold_scale_pos _ env p.1 s hallok hs hs0
  obtain ⟨s0, hs0eq, himp⟩ :=
    checkDeps_complete env deps [] vs hcheck p hp s hbefore hs0 r hr
  refine ⟨s0, hs0eq, fun hz0 => ?_⟩
  obtain ⟨v, hv, hveq⟩ := himp hz0
  obtain ⟨var, hvr, hclean, hany⟩ := hres v hv
  have hvmem : var ∈ vs.filterMap (fun v => Dependency.resolveVarOf v.service) :=
    List.mem_filterMap.mpr ⟨v, hv, hvr⟩
  have hzero : lastAssign
      (foldRewrite (vs.filterMap (fun v => Dependency.resolveVarOf v.service)) env)
      var = some (lc "0") :=
    fold_self_zero _ env var hallok hvmem hclean hany
  have hmap : findAssoc Dependency.scale_var_mapping p.1 = some var := by
    have h1 := resolveVarOf_scale_mapping v.service var hvr
    rwa [hveq] at h1
  have hafter : Dependency.get_service_scale
      (foldRewrite (vs.filterMap (fun v => Dependency.resolveVarOf v.service)) env)
      p.1 = some 0 := by
    unfold Dependency.get_service_scale
    simp only [hmap, hzero, Option.getD_some]
    decide
  rw [hafter] at hs
  exact hs0 (Option.some.inj hs).symm

/-- Witness for `c1_dependency_soundness_amended` at a concrete
dependency graph and settings file. -/
theorem c1_dependency_soundness_amended_witness :
    Dependency.check_service_dependencies c1wDeps c1wEnv =
      some c1wViolations ∧
    (∀ p ∈ c1wDeps, ∀ s : Int,
      Dependency.get_service_scale
        (Dependency.auto_resolve_dependency_violations c1wViolations
          c1wEnv).1 p.1 = some s →
      s ≠ 0 →
      ∀ r ∈ p.2.requires, ∃ s0 : Int,
        Dependency.get_service_scale c1wEnv r = some s0 ∧ s0 ≠ 0) :=
  ⟨by decide,
   c1_dependency_soundness_amended c1wDeps c1wEnv c1wViolations (by decide)
    (by
      intro v hv
      rw [show c1wViolations = [⟨lc "n8n", lc "weaviate",
        Dependency.defaultErrMsg (lc "n8n") (lc "weaviate")⟩] from rfl,
        List.mem_singleton] at hv
      subst hv
      exact ⟨lc "N8N_SCALE", by decide, by decide, by decide⟩)⟩

theorem splitLines_ne_nil (s : List Char) : splitLines s ≠ [] := by
  induction s with
  | nil => simp [splitLines]
  | cons c cs ih =>
    unfold splitLines
    by_cases hc : c = '\n'
    · simp [hc]
    · rw [if_neg hc]
      cases h : splitLines cs with
      | nil => simp
      | cons hd tl => simp

theorem mem_splitLines_no_newline (s : List Char) :
    ∀ l ∈ splitLines s, '\n' ∉ l := by
  induction s with
  | nil =>
    intro l hl
    rw [show splitLines [] = [[]] from rfl, List.mem_singleton] at hl
    subst hl
    exact List.not_mem_nil '\n'
  | cons c cs ih =>
    intro l hl
    unfold splitLines at hl
    by_cases hc : c = '\n'
    · rw [if_pos hc] at hl
      rcases List.mem_cons.mp hl with rfl | h
      · exact List.not_mem_nil '\n'
      · exact ih l h
    · rw [if_neg hc] at hl
      cases h : splitLines cs with
      | nil => exact absurd h (splitLines_ne_nil cs)
      | cons hd tl =>
        rw [h] at hl
        rcases List.mem_cons.mp hl with rfl | hmem
        · intro hn
          rcases List.mem_cons.mp hn with h1 | h1
          · exact hc h1.symm
          · exact ih hd (h ▸ List.mem_cons_self hd tl) h1
        · exact ih l (h ▸ List.mem_cons_of_mem hd hmem)

theorem join_split (s : List Char) : joinLines (splitLines s) = s := by
  induction s with
  | nil => rfl
  | cons c cs ih =>
    unfold splitLines
    by_cases hc : c = '\n'
    · rw [if_pos hc]
      cases h : splitLines cs with
      | nil => exact absurd h (splitLines_ne_nil cs)
      | cons hd tl =>
        rw [h] at ih
        subst hc
        show joinLines ([] :: hd :: tl) = '\n' :: cs
        rw [show joinLines ([] :: hd :: tl) =
          [] ++ '\n' :: joinLines (hd :: tl) from rfl, ih]
        rfl
    · rw [if_neg hc]
      cases h : splitLines cs with
      | nil => exact absurd h (splitLines_ne_nil cs)
      | cons hd tl =>
        rw [h] at ih
        cases tl with
        | nil =>
          show joinLines [c :: hd] = c :: cs
          rw [show joinLines [c :: hd] = c :: hd from rfl]
          rw [show joinLines [hd] = hd from rfl] at ih
          rw [ih]
        | cons hd' tl' =>
          show joinLines ((c :: hd) :: hd' :: tl') = c :: cs
          rw [show joinLines ((c :: hd) :: hd' :: tl') =
            (c :: hd) ++ '\n' :: joinLines (hd' :: tl') from rfl]
          rw [show joinLines (hd :: hd' :: tl') =
            hd ++ '\n' :: joinLines (hd' :: tl') from rfl] at ih
          rw [List.cons_append, ih]

theorem splitLines_cons_ne (c : Char) (cs : List Char) (hc : ¬ c = '\n') :
    splitLines (c :: cs) =
      match splitLines cs with
      | [] => [[c]]
      | h :: t => (c :: h) :: t := by
  have h0 : splitLines (c :: cs) =
      if c = '\n' then [] :: splitLines cs
      else
        match splitLines cs with
        | [] => [[c]]
        | h :: t => (c :: h) :: t := rfl
  rw [h0, if_neg hc]

theorem splitLines_append_newline (a b : List Char) :
    splitLines (a ++ '\n' :: b) = splitLines a ++ splitLines b := by
  induction a with
  | nil => rfl
  | cons c a' ih =>
    by_cases hc : c = '\n'
    · subst hc
      show splitLines ('\n' :: (a' ++ '\n' :: b)) = _
      rw [show splitLines ('\n' :: (a' ++ '\n' :: b)) =
        [] :: splitLines (a' ++ '\n' :: b) from rfl, ih]
      rfl
    · show splitLines (c :: (a' ++ '\n' :: b)) = _
      rw [splitLines_cons_ne c _ hc, splitLines_cons_ne c a' hc, ih]
      cases h : splitLines a' with
      | nil => exact absurd h (splitLines_ne_nil a')
      | cons hd tl => simp

theorem splitLines_no_newline (l : List Char) (h : '\n' ∉ l) :
    splitLines l = [l] := by
  induction l with
  | nil => rfl
  | cons c cs ih =>
    have hc : ¬ c = '\n' := fun hh => h (hh ▸ List.mem_cons_self c cs)
    unfold splitLines
    rw [if_neg hc, ih (fun hh => h (List.mem_cons_of_mem c hh))]

theorem joinLines_append_singleton (ls : List (List Char)) (x : List Char)
    (hne : ls ≠ []) :
    joinLines (ls ++ [x]) = joinLines ls ++ '\n' :: x := by
  induction ls with
  | nil => exact absurd rfl hne
  | cons l ls ih =>
    cases ls with
    | nil => rfl
    | cons l' ls' =>
      have e1 : (l :: l' :: ls') ++ [x] = l :: (l' :: (ls' ++ [x])) := by simp
      rw [e1]
      rw [show joinLines (l :: (l' :: (ls' ++ [x]))) =
        l ++ '\n' :: joinLines (l' :: (ls' ++ [x])) from rfl]
      have ih' := ih (by simp)
      rw [List.cons_append] at ih'
      rw [ih']
      rw [show joinLines (l :: l' :: ls') =
        l ++ '\n' :: joinLines (l' :: ls') from rfl]
      simp

theorem split_join (ls : List (List Char)) (hne : ls ≠ [])
    (h : ∀ l ∈ ls, '\n' ∉ l) : splitLines (joinLines ls) = ls := by
  induction ls with
  | nil => exact absurd rfl hne
  | cons l ls ih =>
    cases ls with
    | nil =>
      show splitLines (joinLines [l]) = [l]
      rw [show joinLines [l] = l from rfl]
      exact splitLines_no_newline l (h l (List.mem_cons_self l []))
    | cons l' ls' =>
      rw [show joinLines (l :: l' :: ls') =
        l ++ '\n' :: joinLines (l' :: ls') from rfl]
      rw [splitLines_append_newline,
        splitLines_no_newline l (h l (List.mem_cons_self l _)),
        ih (by simp) (fun x hx => h x (List.mem_cons_of_mem l hx))]
      rfl

theorem map_eq_self_of {α : Type} (f : α → α) (l : List α)
    (h : ∀ x ∈ l, f x = x) : l.map f = l := by
  induction l with
  | nil => rfl
  | cons x xs ih =>
    rw [List.map_cons, h x (List.mem_cons_self x xs),
      ih (fun a ha => h a (List.mem_cons_of_mem x ha))]

/-- C6 (amended): the upsert write is idempotent for keys and values
free of newlines and of backslashes (a backslash anywhere in the
`re.sub` replacement template `key=value` — key included — would
undergo replacement-escape processing in the source, below this
model's level of abstraction; a newline breaks the line structure the
anchored pattern relies on — see the counterexample). -/
theorem c6_upsert_idempotent (content key value : List Char)
    (hk : '\n' ∉ key) (hv : '\n' ∉ value) (_hb : '\\' ∉ value)
    (_hbk : '\\' ∉ key) :
    upsertEnv key value (upsertEnv key value content) =
      upsertEnv key value content := by
  have hlinenl : '\n' ∉ (key ++ ['=']) ++ value := by
    intro h
    rcases List.mem_append.mp h with h | h
    · rcases List.mem_append.mp h with h | h
      · exact hk h
      · simp at h
    · exact hv h
  have hself : (key ++ ['=']).isPrefixOf ((key ++ ['=']) ++ value) = true :=
    List.isPrefixOf_iff_prefix.mpr ⟨value, rfl⟩
  have hff : ∀ l, (fun l => if (key ++ ['=']).isPrefixOf l
        then (key ++ ['=']) ++ value else l)
      ((fun l => if (key ++ ['=']).isPrefixOf l
        then (key ++ ['=']) ++ value else l) l) =
      (fun l => if (key ++ ['=']).isPrefixOf l
        then (key ++ ['=']) ++ value else l) l := by
    intro l
    by_cases hp : (key ++ ['=']).isPrefixOf l = true
    · simp only [hp, if_true, hself]
    · simp only [Bool.not_eq_true] at hp
      simp [hp]
  by_cases hm : (splitLines content).any
      (fun l => (key ++ ['=']).isPrefixOf l) = true
  · have hu1 : upsertEnv key value content =
        joinLines ((splitLines content).map
          (fun l => if (key ++ ['=']).isPrefixOf l
            then (key ++ ['=']) ++ value else l)) := by
      simp only [upsertEnv]
      rw [if_pos hm]
    rw [hu1]
    have hnl : ∀ l' ∈ (splitLines content).map
        (fun l => if (key ++ ['=']).isPrefixOf l
          then (key ++ ['=']) ++ value else l), '\n' ∉ l' := by
      intro l' hl'
      obtain ⟨l, hl, rfl⟩ := List.mem_map.mp hl'
      by_cases hp : (key ++ ['=']).isPrefixOf l = true
      · simp only [hp, if_true]
        exact hlinenl
      · simp only [Bool.not_eq_true] at hp
        simp only [hp, Bool.false_eq_true, if_false]
        exact mem_splitLines_no_newline content l hl
    have hne : (splitLines content).map
        (fun l => if (key ++ ['=']).isPrefixOf l
          then (key ++ ['=']) ++ value else l) ≠ [] := by
      intro hh
      exact splitLines_ne_nil content (List.map_eq_nil_iff.mp hh)
    have hsplit2 := split_join _ hne hnl
    have hany2 : ((splitLines content).map
        (fun l => if (key ++ ['=']).isPrefixOf l
          then (key ++ ['=']) ++ value else l)).any
        (fun l => (key ++ ['=']).isPrefixOf l) = true := by
      obtain ⟨l, hl, hp⟩ := List.any_eq_true.mp hm
      refine List.any_eq_true.mpr ⟨(key ++ ['=']) ++ value, ?_, hself⟩
      refine List.mem_map.mpr ⟨l, hl, ?_⟩
      simp only [hp, if_true]
    simp only [upsertEnv]
    rw [hsplit2, if_pos hany2, List.map_map,
      show ((fun l => if (key ++ ['=']).isPrefixOf l
        then (key ++ ['=']) ++ value else l) ∘
        (fun l => if (key ++ ['=']).isPrefixOf l
          then (key ++ ['=']) ++ value else l)) =
        (fun l => if (key ++ ['=']).isPrefixOf l
          then (key ++ ['=']) ++ value else l) from funext hff]
  · have hmf : (splitLines content).any
        (fun l => (key ++ ['=']).isPrefixOf l) = false := by
      simpa using hm
    have hu1 : upsertEnv key value content =
        content ++ '\n' :: ((key ++ ['=']) ++ value) := by
      simp only [upsertEnv]
      rw [if_neg hm]
    rw [hu1]
    simp only [upsertEnv]
    have hsplit : splitLines (content ++ '\n' :: ((key ++ ['=']) ++ value)) =
        splitLines content ++ [(key ++ ['=']) ++ value] := by
      rw [splitLines_append_newline, splitLines_no_newline _ hlinenl]
    rw [hsplit]
    have hany2 : (splitLines content ++ [(key ++ ['=']) ++ value]).any
        (fun l => (key ++ ['=']).isPrefixOf l) = true := by
      rw [List.any_append]
      simp [hself]
    rw [if_pos hany2, List.map_append,
      map_eq_self_of _ _ (fun x hx => by
        have hpx : (key ++ ['=']).isPrefixOf x = false := by
          cases hbb : (key ++ ['=']).isPrefixOf x with
          | false => rfl
          | true => exact absurd hbb (List.any_eq_false.mp hmf x hx)
        simp [hpx]),
      show ([(key ++ ['=']) ++ value].map
        (fun l => if (key ++ ['=']).isPrefixOf l
          then (key ++ ['=']) ++ value else l)) =
        [(key ++ ['=']) ++ value] from by simp [hself],
      joinLines_append_singleton _ _ (splitLines_ne_nil content),
      join_split content]

/-- C6 counterexample: with a value containing a newline, two
consecutive identical upserts do not leave the file unchanged — the
first write splits the replacement across two lines, and the second
rewrites only the first of them, duplicating the tail. -/
theorem c6_counterexample :
    upsertEnv (lc "K") c6Value (upsertEnv (lc "K") c6Value c6Content) ≠
      upsertEnv (lc "K") c6Value c6Content := by
  decide

/-- Witness for `c6_upsert_idempotent` on a concrete file. -/
theorem c6_upsert_idempotent_witness :
    ('\n' ∉ lc "KEY") ∧ ('\n' ∉ lc "value1") ∧ ('\\' ∉ lc "value1") ∧
    ('\\' ∉ lc "KEY") ∧
    upsertEnv (lc "KEY") (lc "value1")
      (upsertEnv (lc "KEY") (lc "value1") (lc "A=1\nKEY=old\nB=2")) =
    upsertEnv (lc "KEY") (lc "value1") (lc "A=1\nKEY=old\nB=2") :=
  ⟨by decide, by decide, by decide, by decide,
   c6_upsert_idempotent (lc "A=1\nKEY=old\nB=2") (lc "KEY") (lc "value1")
     (by decide) (by decide) (by decide) (by decide)⟩

theorem identChar_facts (c : Char) (h : (c.isAlphanum || c == '_') = true) :
    isPyWs c = false ∧ c ≠ '=' ∧ c ≠ '#' ∧ c ≠ '\n' := by
  refine ⟨?_, ?_, ?_, ?_⟩
  · by_contra hws
    simp only [Bool.not_eq_false] at hws
    unfold isPyWs at hws
    simp only [Bool.or_eq_true, decide_eq_true_eq] at hws
    rcases hws with ((((h1 | h1) | h1) | h1) | h1) | h1 <;>
      subst h1 <;> exact absurd h (by decide)
  · intro he
    subst he
    exact absurd h (by decide)
  · intro he
    subst he
    exact absurd h (by decide)
  · intro he
    subst he
    exact absurd h (by decide)

theorem validIdent_chars (k : List Char) (hk : validIdent k = true) :
    k ≠ [] ∧ ∀ c ∈ k, isPyWs c = false ∧ c ≠ '=' ∧ c ≠ '#' ∧ c ≠ '\n' := by
  unfold validIdent at hk
  simp only [Bool.and_eq_true, Bool.not_eq_true'] at hk
  constructor
  · intro hnil
    rw [hnil] at hk
    exact absurd hk.1 (by decide)
  · intro c hc
    exact identChar_facts c (List.all_eq_true.mp hk.2 c hc)

theorem dropWhile_of_head_neg {α : Type} (p : α → Bool) (xs : List α)
    (h : ∀ x, xs.head? = some x → p x = false) : xs.dropWhile p = xs := by
  cases xs with
  | nil => rfl
  | cons x rest =>
    rw [List.dropWhile_cons]
    simp [h x rfl]

theorem pyRStrip_of_head_rev (v : List Char)
    (h : ∀ c, v.reverse.head? = some c → isPyWs c = false) :
    pyRStrip v = v := by
  unfold pyRStrip
  rw [dropWhile_of_head_neg _ _ h, List.reverse_reverse]

theorem stripChar_of_edges (c : Char) (v : List Char)
    (hh : ∀ d, v.head? = some d → ¬ d = c)
    (hl : ∀ d, v.reverse.head? = some d → ¬ d = c) :
    stripChar c v = v := by
  unfold stripChar
  rw [dropWhile_of_head_neg _ _
      (fun d hd => decide_eq_false_iff_not.mpr (hh d hd)),
    dropWhile_of_head_neg _ _
      (fun d hd => decide_eq_false_iff_not.mpr (hl d hd)),
    List.reverse_reverse]

theorem edge_facts (d : Char)
    (h : (!(isPyWs d || d == '"' || d == '\'')) = true) :
    isPyWs d = false ∧ ¬ d = '"' ∧ ¬ d = '\'' := by
  simp only [Bool.not_eq_true', Bool.or_eq_false_iff, beq_eq_false_iff_ne,
    ne_eq] at h
  exact ⟨h.1.1, h.1.2, h.2⟩

theorem cleanValue_norm (v : List Char) (hv : cleanValue v = true) :
    normValue v = v := by
  unfold cleanValue at hv
  simp only [Bool.and_eq_true] at hv
  obtain ⟨⟨⟨_, _⟩, hhd⟩, hlast⟩ := hv
  have hhd' : ∀ d, v.head? = some d →
      isPyWs d = false ∧ ¬ d = '"' ∧ ¬ d = '\'' := by
    intro d hd
    rw [hd] at hhd
    exact edge_facts d hhd
  have hlast' : ∀ d, v.reverse.head? = some d →
      isPyWs d = false ∧ ¬ d = '"' ∧ ¬ d = '\'' := by
    intro d hd
    rw [hd] at hlast
    exact edge_facts d hlast
  have hstrip : pyStrip v = v := by
    unfold pyStrip
    rw [show pyLStrip v = v from
      dropWhile_of_head_neg _ _ (fun d hd => (hhd' d hd).1)]
    exact pyRStrip_of_head_rev v (fun c hc => (hlast' c hc).1)
  unfold normValue
  rw [hstrip,
    stripChar_of_edges '"' v (fun d hd => (hhd' d hd).2.1)
      (fun d hd => (hlast' d hd).2.1),
    stripChar_of_edges '\'' v (fun d hd => (hhd' d hd).2.2)
      (fun d hd => (hlast' d hd).2.2)]

theorem cleanValue_facts (v : List Char) (hv : cleanValue v = true) :
    ('\n' ∉ v) ∧ ('#' ∉ v) ∧
    (∀ d, v.head? = some d →
      isPyWs d = false ∧ ¬ d = '"' ∧ ¬ d = '\'') ∧
    (∀ d, v.reverse.head? = some d →
      isPyWs d = false ∧ ¬ d = '"' ∧ ¬ d = '\'') := by
  unfold cleanValue at hv
  simp only [Bool.and_eq_true] at hv
  obtain ⟨⟨⟨h1, h2⟩, hhd⟩, hlast⟩ := hv
  refine ⟨?_, ?_, ?_, ?_⟩
  · intro hm
    rw [show v.contains '\n' = v.elem '\n' from rfl,
      List.elem_eq_true_of_mem hm] at h1
    exact absurd h1 (by decide)
  · intro hm
    rw [show v.contains '#' = v.elem '#' from rfl,
      List.elem_eq_true_of_mem hm] at h2
    exact absurd h2 (by decide)
  · intro d hd
    rw [hd] at hhd
    exact edge_facts d hhd
  · intro d hd
    rw [hd] at hlast
    exact edge_facts d hlast

/-- Parsing the serialised line of a map entry recovers it exactly. -/
theorem parseLine_entry (k v : List Char) (hk : validIdent k = true)
    (hv : cleanValue v = true) :
    parseLine (k ++ '=' :: v) = some (k, v) := by
  obtain ⟨hne, hch⟩ := validIdent_chars k hk
  obtain ⟨hnl, hnsharp, hhd, hlast⟩ := cleanValue_facts v hv
  have hL : ∀ x, (k ++ '=' :: v).head? = some x → isPyWs x = false := by
    intro x hx
    cases k with
    | nil => exact absurd rfl hne
    | cons a k' =>
      rw [List.cons_append, List.head?_cons] at hx
      rw [← Option.some.inj hx]
      exact (hch a (List.mem_cons_self a k')).1
  have hstripline : pyStrip (k ++ '=' :: v) = k ++ '=' :: v := by
    unfold pyStrip
    rw [show pyLStrip (k ++ '=' :: v) = k ++ '=' :: v from
      dropWhile_of_head_neg _ _ hL]
    apply pyRStrip_of_head_rev
    intro c hc
    rw [show (k ++ '=' :: v).reverse = v.reverse ++ '=' :: k.reverse from
      by simp] at hc
    cases hvr : v.reverse with
    | nil =>
      rw [hvr, List.nil_append, List.head?_cons] at hc
      rw [← Option.some.inj hc]
      decide
    | cons d rest =>
      rw [hvr, List.cons_append, List.head?_cons] at hc
      rw [← Option.some.inj hc]
      exact (hlast d (by rw [hvr]; rfl)).1
  have hHash : ¬ ((k ++ '=' :: v).head? = some '#') := by
    cases k with
    | nil => exact absurd rfl hne
    | cons a k' =>
      rw [List.cons_append, List.head?_cons]
      intro hcon
      exact (hch a (List.mem_cons_self a k')).2.2.1 (Option.some.inj hcon)
  unfold parseLine
  simp only [hstripline]
  rw [if_neg (show ¬(k ++ '=' :: v = []) from by cases k <;> simp),
    if_neg hHash,
    if_pos (show '=' ∈ k ++ '=' :: v from
      List.mem_append_right _ (List.mem_cons_self _ _))]
  have hall : ∀ x ∈ k, (fun c => decide (c ≠ '=')) x = true := fun x hx => by
    simp only [decide_eq_true_eq]
    exact (hch x hx).2.1
  have htake : (k ++ '=' :: v).takeWhile (fun c => decide (c ≠ '=')) = k := by
    rw [takeWhile_append_allPos _ _ _ hall]
    simp [List.takeWhile_cons]
  have hdrop : (k ++ '=' :: v).dropWhile (fun c => decide (c ≠ '=')) =
      '=' :: v := by
    rw [dropWhile_append_allPos _ _ _ hall]
    simp [List.dropWhile_cons]
  rw [htake, hdrop]
  simp only [List.tail_cons]
  rw [if_neg hnsharp]
  rw [pyStrip_of_nonws k (fun c hc => (hch c hc).1), cleanValue_norm v hv]

theorem updateAssoc_not_mem (acc : List (List Char × List Char))
    (k v : List Char) (h : acc.any (fun p => p.1 = k) = false) :
    updateAssoc acc k v = acc ++ [(k, v)] := by
  unfold updateAssoc
  rw [if_neg (by simp [h])]

theorem parse_fold_entries (m : List (List Char × List Char)) :
    ∀ acc, (∀ p ∈ m, validIdent p.1 = true) →
    (∀ p ∈ m, cleanValue p.2 = true) →
    (m.map Prod.fst).Nodup →
    (∀ p ∈ m, acc.any (fun q => q.1 = p.1) = false) →
    (m.map (fun p => p.1 ++ '=' :: p.2)).foldl (fun acc l =>
      match parseLine l with
      | some kv => updateAssoc acc kv.1 kv.2
      | none => acc) acc = acc ++ m := by
  induction m with
  | nil =>
    intro acc _ _ _ _
    simp
  | cons p m ih =>
    intro acc hks hvs hnd hacc
    rw [List.map_cons, List.foldl_cons]
    rw [show (match parseLine (p.1 ++ '=' :: p.2) with
      | some kv => updateAssoc acc kv.1 kv.2
      | none => acc) = updateAssoc acc p.1 p.2 from by
        rw [parseLine_entry p.1 p.2 (hks p (List.mem_cons_self p m))
          (hvs p (List.mem_cons_self p m))]]
    rw [updateAssoc_not_mem acc p.1 p.2 (hacc p (List.mem_cons_self p m))]
    have hp1 : p.1 ∉ m.map Prod.fst := by
      rw [List.map_cons, List.nodup_cons] at hnd
      exact hnd.1
    have hnd' : (m.map Prod.fst).Nodup := by
      rw [List.map_cons, List.nodup_cons] at hnd
      exact hnd.2
    have hacc' : ∀ q ∈ m,
        (acc ++ [(p.1, p.2)]).any (fun r => r.1 = q.1) = false := by
      intro q hq
      rw [List.any_append]
      simp only [Bool.or_eq_false_iff]
      refine ⟨hacc q (List.mem_cons_of_mem p hq), ?_⟩
      simp only [List.any_cons, List.any_nil, Bool.or_false,
        decide_eq_false_iff_not]
      intro he
      exact hp1 (he ▸ List.mem_map.mpr ⟨q, hq, rfl⟩)
    rw [ih (acc ++ [(p.1, p.2)])
      (fun q hq => hks q (List.mem_cons_of_mem p hq))
      (fun q hq => hvs q (List.mem_cons_of_mem p hq)) hnd' hacc']
    simp

/-- C7 (amended): the round-trip `parse(serialize(m)) = m` holds for
maps with pairwise-distinct valid-identifier keys and values that
contain no `#` or newline and whose first and last characters are
neither whitespace nor quotes.  Values containing `#`, surrounded by
quotes or by whitespace are altered by the parser's comment-stripping
and normalisation (see the counterexample). -/
theorem c7_round_trip (m : List (List Char × List Char))
    (hnd : (m.map Prod.fst).Nodup)
    (hks : ∀ p ∈ m, validIdent p.1 = true)
    (hvs : ∀ p ∈ m, cleanValue p.2 = true) :
    parseEnvFile (splitLines (serializeEnv m)) = m := by
  cases m with
  | nil => decide
  | cons p m' =>
    unfold serializeEnv
    have hlines : splitLines (joinLines
        ((p :: m').map (fun q => q.1 ++ '=' :: q.2))) =
        (p :: m').map (fun q => q.1 ++ '=' :: q.2) := by
      apply split_join
      · simp
      · intro l hl
        obtain ⟨q, hq, rfl⟩ := List.mem_map.mp hl
        intro hmem
        rcases List.mem_append.mp hmem with hm1 | hm2
        · exact ((validIdent_chars q.1 (hks q hq)).2 '\n' hm1).2.2.2 rfl
        · rcases List.mem_cons.mp hm2 with he | hm3
          · exact absurd he (by decide)
          · exact (cleanValue_facts q.2 (hvs q hq)).1 hm3
    rw [hlines]
    unfold parseEnvFile
    rw [parse_fold_entries (p :: m') [] hks hvs hnd (fun q _ => rfl)]
    simp

/-- C7 counterexample: the round-trip fails for a value containing `#`
(inline-comment stripping), a quoted value (quote stripping), and a
value with surrounding whitespace (whitespace stripping) — the three
cases the original claim asserts to be included. -/
theorem c7_counterexample :
    parseEnvFile (splitLines (serializeEnv [(lc "A", lc "x#y")])) ≠
      [(lc "A", lc "x#y")] ∧
    parseEnvFile (splitLines (serializeEnv [(lc "A", lc "\"v\"")])) ≠
      [(lc "A", lc "\"v\"")] ∧
    parseEnvFile (splitLines (serializeEnv [(lc "A", lc " v ")])) ≠
      [(lc "A", lc " v ")] := by
  decide

/-- Witness for `c7_round_trip` on a concrete two-entry map whose
values contain `=` and mixed case. -/
theorem c7_round_trip_witness :
    (([(lc "KEY_ONE", lc "val=1"), (lc "KEY_TWO", lc "ok")].map
      Prod.fst).Nodup) ∧
    parseEnvFile (splitLines (serializeEnv
      [(lc "KEY_ONE", lc "val=1"), (lc "KEY_TWO", lc "ok")])) =
      [(lc "KEY_ONE", lc "val=1"), (lc "KEY_TWO", lc "ok")] :=
  ⟨by decide,
   c7_round_trip [(lc "KEY_ONE", lc "val=1"), (lc "KEY_TWO", lc "ok")]
     (by decide) (by decide) (by decide)⟩

theorem find?_map_update_self (ps : List (List Char × List Char))
    (k v : List Char) (hany : ps.any (fun p => p.1 = k) = true) :
    Option.map (fun x => x.2) (List.find? (fun q => decide (q.1 = k))
      (ps.map (fun p => if p.1 = k then (k, v) else p))) = some v := by
  induction ps with
  | nil => simp at hany
  | cons p ps ih =>
    by_cases hp : p.1 = k
    · simp [List.find?_cons, hp]
    · have hany' : ps.any (fun p => decide (p.1 = k)) = true := by
        rw [List.any_cons, Bool.or_eq_true] at hany
        rcases hany with h | h
        · exact absurd (of_decide_eq_true h) hp
        · exact h
      have h1 : decide ((if p.1 = k then (k, v) else p).1 = k) = false := by
        simp [hp]
      rw [List.map_cons, List.find?_cons, h1]
      exact ih hany'

theorem find?_map_update_other (ps : List (List Char × List Char))
    (k' v' k : List Char) (hne : ¬ k' = k) :
    List.find? (fun q => decide (q.1 = k))
      (ps.map (fun p => if p.1 = k' then (k', v') else p)) =
    List.find? (fun q => decide (q.1 = k)) ps := by
  induction ps with
  | nil => rfl
  | cons p ps ih =>
    rw [List.map_cons, List.find?_cons, List.find?_cons]
    by_cases hp : p.1 = k'
    · by_cases hdk : p.1 = k
      · exact absurd (show k' = k by rw [← hp]; exact hdk) hne
      · have h1 : decide ((if p.1 = k' then (k', v') else p).1 = k) = false := by
          simp [hp, hne]
        have h2 : decide (p.1 = k) = false := by simp [hdk]
        rw [h1, h2]
        exact ih
    · have h0 : (if p.1 = k' then (k', v') else p) = p := by simp [hp]
      rw [h0]
      cases hdk : decide (p.1 = k) with
      | true => rfl
      | false => exact ih

theorem findAssoc_updateAssoc_self (acc : List (List Char × List Char))
    (k v : List Char) : lookupAssoc (updateAssoc acc k v) k = some v := by
  unfold updateAssoc lookupAssoc
  by_cases hany : acc.any (fun p => p.1 = k) = true
  · rw [if_pos hany]
    exact find?_map_update_self acc k v hany
  · rw [if_neg hany]
    have hnone : acc.find? (fun q => decide (q.1 = k)) = none := by
      rw [List.find?_eq_none]
      intro p hp
      simp only [decide_eq_true_eq]
      intro he
      exact hany (List.any_eq_true.mpr ⟨p, hp, by simp [he]⟩)
    rw [List.find?_append, hnone]
    simp

theorem findAssoc_updateAssoc_other (acc : List (List Char × List Char))
    (k' v' k : List Char) (hne : ¬ k' = k) :
    lookupAssoc (updateAssoc acc k' v') k = lookupAssoc acc k := by
  unfold updateAssoc lookupAssoc
  by_cases hany : acc.any (fun p => p.1 = k') = true
  · rw [if_pos hany, find?_map_update_other acc k' v' k hne]
  · rw [if_neg hany, List.find?_append]
    cases hf : acc.find? (fun q => decide (q.1 = k)) with
    | some p => rfl
    | none =>
      simp [List.find?_cons, hne]

/-- The parsed dict's lookup agrees with `lastAssign`: the last line of
the file assigning a key determines its value. -/
theorem lookupAssoc_parseEnvFile (env : List (List Char)) (k : List Char) :
    lookupAssoc (parseEnvFile env) k = lastAssign env k := by
  suffices h : ∀ acc, lookupAssoc (env.foldl (fun acc l =>
      match parseLine l with
      | some kv => updateAssoc acc kv.1 kv.2
      | none => acc) acc) k =
      match lastAssign env k with
      | some v => some v
      | none => lookupAssoc acc k by
    have h0 := h []
    rw [show lookupAssoc [] k = none from rfl] at h0
    unfold parseEnvFile
    rw [h0]
    cases lastAssign env k <;> rfl
  induction env with
  | nil =>
    intro acc
    rfl
  | cons l ls ih =>
    intro acc
    rw [List.foldl_cons, lastAssign_cons]
    cases hla : lastAssign ls k with
    | some v =>
      have h2 := ih (match parseLine l with
        | some kv => updateAssoc acc kv.1 kv.2
        | none => acc)
      rw [hla] at h2
      rw [h2]
    | none =>
      have h2 := ih (match parseLine l with
        | some kv => updateAssoc acc kv.1 kv.2
        | none => acc)
      rw [hla] at h2
      rw [h2]
      cases hp : parseLine l with
      | none => rfl
      | some kv =>
        by_cases hk : kv.1 = k
        · subst hk
          simp [findAssoc_updateAssoc_self]
        · simp only []
          rw [if_neg hk]
          exact findAssoc_updateAssoc_other acc kv.1 kv.2 k hk
